import Mathlib

/-!
Verification of the `obsidian-contacts` plugin.

The TypeScript source (`src/ContactManager.ts`, `src/ContactView.ts`,
`src/types.ts` and the plugin main file) is shallowly embedded below.
JavaScript strings are modelled as `List Char`; the JavaScript value
`undefined` is modelled with `Option`; JavaScript exceptions are modelled
with `Except`.  The host vault (Obsidian's document store) and the host
date library (`Date`) are modelled explicitly where the plugin calls them.
-/

namespace OC

/-- JS strings are modelled as lists of characters. -/
abbrev JStr := List Char

/-- Turns a Lean string literal into the `List Char` model of a JS string. -/
def sl (s : String) : JStr := s.toList

/-- Model of JS `String.prototype.split` with a single-character separator:
splits at every occurrence of the separator, keeping empty pieces, and
always returns at least one piece. -/
def jsSplit (sep : Char) : JStr → List JStr
  | [] => [[]]
  | a :: rest =>
    if a = sep then [] :: jsSplit sep rest
    else
      match jsSplit sep rest with
      | [] => [[a]]
      | p :: ps => (a :: p) :: ps

/-- Model of JS `Array.prototype.join` with a single-character separator. -/
def joinChar (c : Char) : List JStr → JStr
  | [] => []
  | [l] => l
  | l :: l2 :: ls => l ++ c :: joinChar c (l2 :: ls)

/-- Model of JS `Array.prototype.join` with a string separator. -/
def joinStr (sep : JStr) : List JStr → JStr
  | [] => []
  | [l] => l
  | l :: l2 :: ls => l ++ sep ++ joinStr sep (l2 :: ls)

/-- ASCII whitespace, for the model of `String.prototype.trim`. -/
def isSpaceCh (c : Char) : Bool := c = ' ' || c = '\t' || c = '\n' || c = '\r'

/-- Model of JS `String.prototype.trim`, restricted to ASCII whitespace
(the values handled by this plugin contain no exotic whitespace). -/
def jsTrim (s : JStr) : JStr :=
  ((s.dropWhile isSpaceCh).reverse.dropWhile isSpaceCh).reverse

/-- `startsW pat s` models `s.startsWith(pat)`. -/
def startsW : JStr → JStr → Bool
  | [], _ => true
  | _ :: _, [] => false
  | p :: ps, c :: cs => p = c && startsW ps cs

/-- Splits `s` at the first occurrence of `pat`, returning the part before
the match and the part after it.  This models the lazy regex group used by
`extractFrontMatter` (opening delimiter, lazy any-character group, closing
delimiter): the group captures up to the first occurrence of the closing
delimiter. -/
def splitOnFirst (pat : JStr) : JStr → Option (JStr × JStr)
  | [] => if pat = [] then some ([], []) else none
  | a :: rest =>
    if startsW pat (a :: rest) then some ([], (a :: rest).drop pat.length)
    else
      match splitOnFirst pat rest with
      | some (pre, post) => some (a :: pre, post)
      | none => none

/-- The contact record (`src/types.ts`).  `email` is optional in the
interface; `phone` is declared required but the modal builds the record
from a `Partial<Contact>` cast, so at runtime it can be `undefined` too —
both are therefore modelled with `Option`. -/
structure Contact where
  name : JStr
  email : Option JStr
  phone : Option JStr
  company : Option JStr
  title : Option JStr
  notes : Option JStr
  tags : Option (List JStr)
  created : JStr
  modified : JStr
  last_contacted : Option JStr
  next_contact : Option JStr
  contact_frequency : Option JStr
deriving DecidableEq, Repr

/-- JS string interpolation of a possibly-`undefined` string:
`${undefined}` produces the nine-character string `"undefined"`. -/
def interpU (o : Option JStr) : JStr := o.getD (sl "undefined")

/-- JS truthiness of a possibly-`undefined` string: `undefined` and the
empty string are falsy. -/
def truthyS (o : Option JStr) : Bool :=
  match o with
  | some v => !v.isEmpty
  | none => false

/-- JS truthiness of `contact.tags?.length`: truthy exactly when the array
is present and non-empty. -/
def truthyT (o : Option (List JStr)) : Bool :=
  match o with
  | some l => !l.isEmpty
  | none => false

/-- `ContactManager.createFrontMatter`: emits `name`, `email`, `phone`
unconditionally (interpolating `undefined` when absent), then each truthy
optional field, then `created` and `modified`, joined with newlines. -/
def createFrontMatter (c : Contact) : JStr :=
  let fm1 := [sl "name: " ++ c.name, sl "email: " ++ interpU c.email,
              sl "phone: " ++ interpU c.phone]
  let fm2 := if truthyS c.company then fm1 ++ [sl "company: " ++ c.company.getD []] else fm1
  let fm3 := if truthyS c.title then fm2 ++ [sl "title: " ++ c.title.getD []] else fm2
  let fm4 := if truthyT c.tags then
               fm3 ++ [sl "tags: " ++ joinStr (sl ", ") (c.tags.getD [])] else fm3
  let fm5 := if truthyS c.last_contacted then
               fm4 ++ [sl "last_contacted: " ++ c.last_contacted.getD []] else fm4
  let fm6 := if truthyS c.next_contact then
               fm5 ++ [sl "next_contact: " ++ c.next_contact.getD []] else fm5
  let fm7 := if truthyS c.contact_frequency then
               fm6 ++ [sl "contact_frequency: " ++ c.contact_frequency.getD []] else fm6
  let fm8 := fm7 ++ [sl "created: " ++ c.created, sl "modified: " ++ c.modified]
  joinChar '\n' fm8

/-- The document text written by `createContact`/`updateContact`:
frontmatter block, blank line, level-1 heading with the name, blank line,
then the notes (empty when absent). -/
def contactFileContent (c : Contact) : JStr :=
  sl "---\n" ++ createFrontMatter c ++ sl "\n---\n\n# " ++ c.name ++ sl "\n\n" ++ c.notes.getD []

/-- The frontmatter dictionary built by `extractFrontMatter`'s reduce:
a JS object, modelled as an association list with insert-or-replace. -/
abbrev Fm := List (JStr × JStr)

/-- JS object property assignment `acc[key] = v` on the association-list
model: replaces an existing binding or appends a new one. -/
def insertKV : Fm → JStr → JStr → Fm
  | [], k, v => [(k, v)]
  | (k', v') :: rest, k, v =>
    if k' = k then (k, v) :: rest else (k', v') :: insertKV rest k v

/-- JS object property read `obj[key]` on the association-list model. -/
def fmGet : Fm → JStr → Option JStr
  | [], _ => none
  | (k', v) :: rest, k => if k' = k then some v else fmGet rest k

/-- One step of `extractFrontMatter`'s reduce: split the line on `:`,
trim every segment; the first segment is the key, the rest re-joined with
`:` is the value; lines with an empty key or no colon are dropped. -/
def stepFm (acc : Fm) (line : JStr) : Fm :=
  match (jsSplit ':' line).map jsTrim with
  | [] => acc
  | key :: values =>
    if key ≠ [] ∧ values ≠ [] then insertKV acc key (joinChar ':' values) else acc

/-- The YAML-ish parse inside `extractFrontMatter`: split the captured
block into lines and reduce. -/
def parseYaml (yaml : JStr) : Fm :=
  (jsSplit '\n' yaml).foldl stepFm []

/-- `ContactManager.extractFrontMatter`: the document must start with
`---` and a newline, and contain a later `\n---`; the text in between is
parsed line by line.  The `try`/`catch` in the source is dead code (the
reduce cannot throw), so the parse always succeeds once the block is
found. -/
def extractFrontMatter (content : JStr) : Option Fm :=
  if startsW (sl "---\n") content then
    match splitOnFirst (sl "\n---") (content.drop 4) with
    | some (yaml, _) => some (parseYaml yaml)
    | none => none
  else none

/-- A vault file handle (Obsidian `TFile`), with the fields the plugin
reads: path, contents and the creation/modification stamps used as
fallback `created`/`modified` values. -/
structure TFile where
  path : JStr
  content : JStr
  ctime : Nat
  mtime : Nat
deriving DecidableEq, Repr

/-- The field mapping of `getContactFromFile`, applied once a frontmatter
dictionary has been extracted: `null` when the `name` key is missing or
empty; otherwise maps the parsed keys onto a `Contact`, defaulting
`email`/`phone` to the empty string and `created`/`modified` to the file
stamps. -/
def decodeFm (fm : Fm) (ctime mtime : Nat) : Option Contact :=
  if truthyS (fmGet fm (sl "name")) then
      some
        { name := (fmGet fm (sl "name")).getD []
          email := some ((fmGet fm (sl "email")).getD [])
          phone := some ((fmGet fm (sl "phone")).getD [])
          company := fmGet fm (sl "company")
          title := fmGet fm (sl "title")
          notes := fmGet fm (sl "notes")
          tags :=
            if truthyS (fmGet fm (sl "tags")) then
              some ((jsSplit ',' ((fmGet fm (sl "tags")).getD [])).map jsTrim)
            else none
          created :=
            if truthyS (fmGet fm (sl "created")) then (fmGet fm (sl "created")).getD []
            else sl (toString ctime)
          modified :=
            if truthyS (fmGet fm (sl "modified")) then (fmGet fm (sl "modified")).getD []
            else sl (toString mtime)
          last_contacted := fmGet fm (sl "last_contacted")
          next_contact := fmGet fm (sl "next_contact")
          contact_frequency := fmGet fm (sl "contact_frequency") }
  else none

/-- `ContactManager.getContactFromFile`: extract the frontmatter block and
decode it (`null` when there is no block or no usable `name`). -/
def getContactFromFile (f : TFile) : Option Contact :=
  match extractFrontMatter f.content with
  | none => none
  | some fm => decodeFm fm f.ctime f.mtime

/-! ## The host document store (Obsidian vault)

Modelled from the spec (§6, "Collaborator interfaces consumed"): a store of
text documents plus folders, with lookup by path, create (failing when the
path is taken), overwrite and rename.  The file list order is the host's
enumeration order.  All vault files are markdown files (the plugin only
ever creates `.md` documents), so `getMarkdownFiles` is the file list. -/

structure Vault where
  files : List TFile
  folders : List JStr
deriving DecidableEq, Repr

/-- Path lookup in the file list (first match, in enumeration order). -/
def lookupF : List TFile → JStr → Option TFile
  | [], _ => none
  | f :: fs, p => if f.path = p then some f else lookupF fs p

/-- Modelled from the spec: `getAbstractFileByPath` finds a file or a
folder at the given path. -/
def abstractEx (v : Vault) (p : JStr) : Bool :=
  (lookupF v.files p).isSome || decide (p ∈ v.folders)

/-- Modelled from the spec: `vault.rename` moves the document (or folder)
at `old` to `new`, leaving everything else in place. -/
def renameV (v : Vault) (old new : JStr) : Vault :=
  { files := v.files.map (fun f => if f.path = old then { f with path := new } else f)
    folders := v.folders.map (fun q => if q = old then new else q) }

/-- Modelled from the spec: `vault.modify` overwrites the contents of the
document at `p`.  (The host also bumps the modification stamp; none of the
verified properties read it, so it is left unchanged here.) -/
def modifyV (v : Vault) (p : JStr) (content : JStr) : Vault :=
  { v with files := v.files.map (fun f => if f.path = p then { f with content := content } else f) }

/-- Modelled from the spec: `vault.create` fails with `AlreadyExists` when
the path is taken, else appends a new document.  (The stamps of the fresh
file are irrelevant to the verified properties and set to zero.) -/
def vaultCreate (v : Vault) (p : JStr) (content : JStr) : Except JStr Vault :=
  if abstractEx v p then Except.error (sl "File already exists")
  else Except.ok { v with files := v.files ++ [{ path := p, content := content, ctime := 0, mtime := 0 }] }

/-! ## The contact repository (`ContactManager`) -/

/-- The file name derived from a contact name: every character outside
`[A-Za-z0-9]` replaced by `-`, then `.md` appended. -/
def fileNameFor (nm : JStr) : JStr :=
  nm.map (fun ch => if ch.isAlphanum then ch else '-') ++ sl ".md"

/-- `<contactsFolder>/<derived file name>`. -/
def contactPath (folder : JStr) (nm : JStr) : JStr :=
  folder ++ '/' :: fileNameFor nm

/-- The name whose derived path `updateContact` treats as the old path:
`originalName || contact.name` (JS `||`, so an empty `originalName` falls
back to the contact's name). -/
def originalBase (c : Contact) (originalName : Option JStr) : JStr :=
  match originalName with
  | some s => if s.isEmpty then c.name else s
  | none => c.name

/-- `ContactManager.createContact`: derive the path from the name and
create the encoded document (the host's `AlreadyExists` error propagates). -/
def createContact (folder : JStr) (v : Vault) (c : Contact) : Except JStr Vault :=
  vaultCreate v (contactPath folder c.name) (contactFileContent c)

/-- `ContactManager.updateContact`: throw `NotFound` when the old path has
no document; rename when the derived paths differ; then overwrite the
document at the new path with the freshly encoded contact (throwing if it
is missing or not a file after the rename). -/
def updateContact (folder : JStr) (v : Vault) (c : Contact) (originalName : Option JStr) :
    Except JStr Vault :=
  let oldPath := contactPath folder (originalBase c originalName)
  let newPath := contactPath folder c.name
  if abstractEx v oldPath then
    let v1 := if oldPath = newPath then v else renameV v oldPath newPath
    match lookupF v1.files newPath with
    | some _ => Except.ok (modifyV v1 newPath (contactFileContent c))
    | none => Except.error (sl "Updated contact file not found")
  else Except.error (sl "Original contact file not found")

/-- `ContactManager.getAllContacts`: empty when the folder is missing;
otherwise decode, in enumeration order, every markdown file whose path
starts with the folder, keeping the successful decodes. -/
def getAllContacts (folder : JStr) (v : Vault) : List Contact :=
  if abstractEx v folder then
    (v.files.filter (fun f => startsW folder f.path)).foldl
      (fun acc f =>
        match getContactFromFile f with
        | some c => acc ++ [c]
        | none => acc) []
  else []

/-! ## The host date library

Modelled from the spec (§4.1): the plugin's only date arithmetic is JS
`new Date(string)` on the plugin's own canonical `YYYY-MM-DDTHH:mm` local
timestamps, followed by `setDate`/`setMonth`/`setFullYear` (calendar
rollover) and re-formatting from the local civil fields.  A civil
date-time record therefore models the `Date`; an unparseable string
models JS `Invalid Date` as `none`.  (JS would also accept other formats,
some of them timezone-dependent; those are outside the plugin's canonical
data and outside this model.) -/

structure DT where
  year : Int
  month : Int
  day : Int
  hour : Int
  minute : Int
deriving DecidableEq, Repr

/-- Proleptic Gregorian leap years, as computed by the JS date library. -/
def isLeapY (y : Int) : Bool :=
  (y % 4 = 0 && y % 100 ≠ 0) || y % 400 = 0

/-- Days in month `m` (0-indexed like JS `getMonth`) of year `y`. -/
def daysInMonth (y m : Int) : Int :=
  if m = 1 then (if isLeapY y then 29 else 28)
  else if m = 3 ∨ m = 5 ∨ m = 8 ∨ m = 10 then 30
  else 31

/-- JS month normalization (carrying a month at or past December into the
next year), for the month ranges reachable from this plugin's calls
(months stay within `[0, 23]`). -/
def monthNorm (y m : Int) : Int × Int :=
  if 12 ≤ m then (y + 1, m - 12) else (y, m)

/-- JS day-of-month normalization: carry an overflowing day count into the
following months.  JS computes this through the epoch timestamp; the fuel
bound is never reached for the day counts this plugin produces. -/
def normD : Nat → Int → Int → Int → Int × Int × Int
  | 0, y, m, d => (y, m, d)
  | Nat.succ fuel, y, m, d =>
    if daysInMonth (monthNorm y m).1 (monthNorm y m).2 < d then
      normD fuel (monthNorm y m).1 ((monthNorm y m).2 + 1)
        (d - daysInMonth (monthNorm y m).1 (monthNorm y m).2)
    else ((monthNorm y m).1, (monthNorm y m).2, d)

/-- `date.setDate(date.getDate() + n)`: the time of day is untouched. -/
def addDays (dt : DT) (n : Int) : DT :=
  let r := normD 24 dt.year dt.month (dt.day + n)
  { year := r.1, month := r.2.1, day := r.2.2, hour := dt.hour, minute := dt.minute }

/-- `date.setMonth(date.getMonth() + k)`: the time of day is untouched. -/
def addMonths (dt : DT) (k : Int) : DT :=
  let r := normD 24 dt.year (dt.month + k) dt.day
  { year := r.1, month := r.2.1, day := r.2.2, hour := dt.hour, minute := dt.minute }

/-- `date.setFullYear(date.getFullYear() + 1)`: the time of day is
untouched (Feb 29 rolls over to Mar 1 in a non-leap target year). -/
def addYears (dt : DT) : DT :=
  let r := normD 24 (dt.year + 1) dt.month dt.day
  { year := r.1, month := r.2.1, day := r.2.2, hour := dt.hour, minute := dt.minute }

/-- Is `c` an ASCII digit? -/
def isDig (c : Char) : Prop := 48 ≤ c.toNat ∧ c.toNat ≤ 57

instance (c : Char) : Decidable (isDig c) := by
  unfold isDig
  infer_instance

/-- Numeric value of an ASCII digit character. -/
def digVal (c : Char) : Int := (c.toNat : Int) - 48

/-- The digit character for `n ∈ [0, 9]`. -/
def digitChar : Nat → Char
  | 0 => '0' | 1 => '1' | 2 => '2' | 3 => '3' | 4 => '4'
  | 5 => '5' | 6 => '6' | 7 => '7' | 8 => '8' | 9 => '9'
  | _ => '*'

/-- Decimal digits of a natural number, by fuel-bounded recursion so that
the kernel can evaluate it (the fuel is never exhausted: each step divides
by ten). -/
def natDigitsAux : Nat → Nat → JStr
  | 0, n => [digitChar n]
  | Nat.succ fuel, n =>
    if n < 10 then [digitChar n]
    else natDigitsAux fuel (n / 10) ++ [digitChar (n % 10)]

/-- Decimal digits of a natural number (JS `Number.prototype.toString`). -/
def natDigits (n : Nat) : JStr := natDigitsAux n n

/-- JS decimal rendering of an integer. -/
def intStr (n : Int) : JStr :=
  if n < 0 then '-' :: natDigits n.natAbs else natDigits n.toNat

/-- `n.toString().padStart(2, '0')`. -/
def pad2 (n : Int) : JStr :=
  let s := intStr n
  if s.length < 2 then '0' :: s else s

/-- The output template of `calculateNextContact`:
`year-MM-DDTHH:mm` from the local civil fields, `getMonth() + 1`,
two-position zero padding. -/
def fmtDT (d : DT) : JStr :=
  intStr d.year ++ '-' :: pad2 (d.month + 1) ++ '-' :: pad2 d.day ++
    'T' :: pad2 d.hour ++ ':' :: pad2 d.minute

/-- Model of `new Date(s)` on the plugin's canonical `YYYY-MM-DDTHH:mm`
strings (parsed by JS as local civil time): exactly sixteen characters,
digits and separators in place, in-range month, day, hour and minute.
Anything else models `Invalid Date` (`none`). -/
def parseTS (s : JStr) : Option DT :=
  match s with
  | [y1, y2, y3, y4, s1, a1, a2, s2, b1, b2, s3, h1, h2, s4, n1, n2] =>
    if isDig y1 ∧ isDig y2 ∧ isDig y3 ∧ isDig y4 ∧ s1 = '-' ∧
        isDig a1 ∧ isDig a2 ∧ s2 = '-' ∧ isDig b1 ∧ isDig b2 ∧ s3 = 'T' ∧
        isDig h1 ∧ isDig h2 ∧ s4 = ':' ∧ isDig n1 ∧ isDig n2 then
      let yr := 1000 * digVal y1 + 100 * digVal y2 + 10 * digVal y3 + digVal y4
      let mo := 10 * digVal a1 + digVal a2
      let dy := 10 * digVal b1 + digVal b2
      let hr := 10 * digVal h1 + digVal h2
      let mi := 10 * digVal n1 + digVal n2
      if 1 ≤ mo ∧ mo ≤ 12 ∧ 1 ≤ dy ∧ dy ≤ daysInMonth yr (mo - 1) ∧ hr ≤ 23 ∧ mi ≤ 59 then
        some { year := yr, month := mo - 1, day := dy, hour := hr, minute := mi }
      else none
    else none
  | _ => none

/-- The string an invalid date formats to: `getFullYear()` and friends are
`NaN`, `NaN.toString()` is `"NaN"`, and `padStart(2, '0')` leaves the
three-character `"NaN"` unchanged. -/
def nanStr : JStr := sl "NaN-NaN-NaNTNaN:NaN"

/-- `calculateNextContact` (plugin main file): `undefined` when either
input is empty or the frequency is unrecognized; otherwise builds a `Date`
from `lastContacted`, advances it per the frequency and formats it — an
unparseable `lastContacted` yields an invalid date whose formatting is the
`NaN` string, not `undefined`. -/
def calculateNextContact (lastContacted frequency : JStr) : Option JStr :=
  if lastContacted.isEmpty || frequency.isEmpty then none
  else
    match parseTS lastContacted with
    | some dt =>
      if frequency = sl "weekly" then some (fmtDT (addDays dt 7))
      else if frequency = sl "monthly" then some (fmtDT (addMonths dt 1))
      else if frequency = sl "quarterly" then some (fmtDT (addMonths dt 3))
      else if frequency = sl "yearly" then some (fmtDT (addYears dt))
      else none
    | none =>
      if frequency = sl "weekly" ∨ frequency = sl "monthly" ∨
          frequency = sl "quarterly" ∨ frequency = sl "yearly" then some nanStr
      else none

/-! ## The edit form's "Mark as Contacted" action (`NewContactModal`) -/

/-- The "Mark as Contacted" click handler: sets `last_contacted` to the
hardcoded constant `'2025-04-24T09:28'` (the source's `nowLocal`),
recomputes `next_contact` from that constant when a frequency is set,
stamps `modified` with the live clock's ISO string (`nowIso`), and
persists the result through `updateContact`.  Returns the persisted
contact and the store outcome. -/
def markAsContacted (folder : JStr) (c : Contact) (originalName : Option JStr)
    (nowIso : JStr) (v : Vault) : Contact × Except JStr Vault :=
  let nowLocal := sl "2025-04-24T09:28"
  let c1 := { c with last_contacted := some nowLocal }
  let c2 :=
    if truthyS c1.contact_frequency then
      { c1 with next_contact := calculateNextContact nowLocal (c1.contact_frequency.getD []) }
    else c1
  let full := { c2 with modified := nowIso }
  (full, updateContact folder v full originalName)

/-! ## String lemmas -/

/-- Scans for a newline immediately followed by a dash: the only way a
closing-delimiter match could begin inside a well-formed frontmatter
block. -/
def hasNLDash : JStr → Bool
  | a :: b :: rest => (a = '\n' && b = '-') || hasNLDash (b :: rest)
  | _ => false

/-! ## Frontmatter parsing lemmas -/

/-- One `key: value` line of the encoded frontmatter. -/
def lineOf (kv : JStr × JStr) : JStr := kv.1 ++ ':' :: ' ' :: kv.2

/-! ## Characterizing the encoder -/

/-- The key/value pairs of the frontmatter lines emitted by
`createFrontMatter`, in emission order. -/
def kvsOf (c : Contact) : List (JStr × JStr) :=
  [(sl "name", c.name), (sl "email", interpU c.email), (sl "phone", interpU c.phone)]
    ++ (if truthyS c.company then [(sl "company", c.company.getD [])] else [])
    ++ (if truthyS c.title then [(sl "title", c.title.getD [])] else [])
    ++ (if truthyT c.tags then [(sl "tags", joinStr (sl ", ") (c.tags.getD []))] else [])
    ++ (if truthyS c.last_contacted then [(sl "last_contacted", c.last_contacted.getD [])] else [])
    ++ (if truthyS c.next_contact then [(sl "next_contact", c.next_contact.getD [])] else [])
    ++ (if truthyS c.contact_frequency then
          [(sl "contact_frequency", c.contact_frequency.getD [])] else [])
    ++ [(sl "created", c.created), (sl "modified", c.modified)]

/-- A value that survives `extractFrontMatter`'s line processing intact:
single-line, and every piece of its colon split is trim-invariant. -/
def valOk (v : JStr) : Prop :=
  '\n' ∉ v ∧ ∀ p ∈ jsSplit ':' v, jsTrim p = p

/-- Tags whose comma-and-space join decodes back to the same list (and is
non-empty, so the emitted line is truthy on the way back). -/
def tagsOk (o : Option (List JStr)) : Prop :=
  o.getD [] = [] ∨
    (joinStr (sl ", ") (o.getD []) ≠ [] ∧ valOk (joinStr (sl ", ") (o.getD [])) ∧
      (jsSplit ',' (joinStr (sl ", ") (o.getD []))).map jsTrim = o.getD [])

/-- Well-formedness of a contact for the frontmatter round trip: a
non-empty single-line name and codec-safe field values. -/
def WF (c : Contact) : Prop :=
  c.name ≠ [] ∧ valOk c.name ∧ valOk (interpU c.email) ∧ valOk (interpU c.phone) ∧
    valOk (c.company.getD []) ∧ valOk (c.title.getD []) ∧
    valOk (c.last_contacted.getD []) ∧ valOk (c.next_contact.getD []) ∧
    valOk (c.contact_frequency.getD []) ∧ valOk c.created ∧ valOk c.modified ∧ tagsOk c.tags

instance (v : JStr) : Decidable (valOk v) := by
  unfold valOk
  infer_instance

instance (o : Option (List JStr)) : Decidable (tagsOk o) := by
  unfold tagsOk
  infer_instance

instance (c : Contact) : Decidable (WF c) := by
  unfold WF
  infer_instance

/-- All frontmatter keys the encoder can emit, in emission order. -/
def theKeys : List JStr :=
  [sl "name", sl "email", sl "phone", sl "company", sl "title", sl "tags",
    sl "last_contacted", sl "next_contact", sl "contact_frequency", sl "created", sl "modified"]

/-- The map from a parsed frontmatter dictionary to a `Contact`
(the record-building tail of `getContactFromFile`). -/
def fmEnc (c : Contact) : Fm :=
  List.foldl (fun a kv => insertKV a kv.1 kv.2) [] (kvsOf c)

/-- The decoded image of a truthy optional field: present fields survive,
absent or empty ones decode as absent. -/
def presentVal (o : Option JStr) : Option JStr :=
  if truthyS o then some (o.getD []) else none

/-- The contact produced by decoding an encoded contact: `name`, `email`,
`phone` survive (with `undefined` interpolated), truthy optionals survive,
absent or empty optionals decode as absent, `notes` is lost (it lives in
the document body, which the decoder never reads). -/
def decodedOf (c : Contact) (ct mt : Nat) : Contact :=
  { name := c.name
    email := some (interpU c.email)
    phone := some (interpU c.phone)
    company := presentVal c.company
    title := presentVal c.title
    notes := none
    tags := if truthyT c.tags then some (c.tags.getD []) else none
    created := if truthyS (some c.created) then c.created else sl (toString ct)
    modified := if truthyS (some c.modified) then c.modified else sl (toString mt)
    last_contacted := presentVal c.last_contacted
    next_contact := presentVal c.next_contact
    contact_frequency := presentVal c.contact_frequency }

/-! ## Vault lemmas -/

/-! ## Date lemmas -/

/-- A civil date-time with in-range fields (what a successful parse
produces). -/
def validDT (d : DT) : Prop :=
  0 ≤ d.month ∧ d.month ≤ 11 ∧ 1 ≤ d.day ∧ d.day ≤ daysInMonth d.year d.month ∧
    0 ≤ d.hour ∧ d.hour ≤ 23 ∧ 0 ≤ d.minute ∧ d.minute ≤ 59

/-- `b` is strictly later than `a` in civil order (the time of day is
untouched by all three advance operations, so year/month/day suffice). -/
def strictLater (a b : DT) : Prop :=
  12 * a.year + a.month < 12 * b.year + b.month ∨
    (12 * a.year + a.month = 12 * b.year + b.month ∧ a.day < b.day)

/-! ## Concrete data for witnesses and counterexamples -/

/-- A well-formed contact whose `notes` field is non-empty. -/
def cNotes : Contact :=
  { name := sl "Ann", email := some (sl "ann@x.com"), phone := some (sl "555-1234")
    company := none, title := none, notes := some (sl "Loves hiking"), tags := none
    created := sl "2025-01-01T00:00", modified := sl "2025-01-02T00:00"
    last_contacted := none, next_contact := none, contact_frequency := none }

/-- A well-formed contact with all interesting optional fields present. -/
def annLee : Contact :=
  { name := sl "Ann Lee", email := some (sl "ann@example.com"), phone := some (sl "555-1234")
    company := some (sl "Acme"), title := some (sl "Dr"), notes := none
    tags := some [sl "friend", sl "work"]
    created := sl "2025-01-01T00:00", modified := sl "2025-01-02T00:00"
    last_contacted := some (sl "2025-04-24T09:28"), next_contact := none
    contact_frequency := some (sl "monthly") }

/-- A contact created with neither email nor phone (the modal allows both
to stay `undefined`). -/
def bobNil : Contact :=
  { name := sl "Bob", email := none, phone := none
    company := none, title := none, notes := none, tags := none
    created := sl "c1", modified := sl "m1"
    last_contacted := none, next_contact := none, contact_frequency := none }

/-- A contact with an `undefined` email but a present phone: the typical
partially-filled modal submission. -/
def careyPhone : Contact :=
  { bobNil with name := sl "Carey", phone := some (sl "555-0000") }

/-! ## Claim theorems -/

/-- A store with one valid contact document, one document with no
frontmatter block, and one whose frontmatter has no `name` key. -/
def exVault : Vault :=
  { files := [⟨sl "Contacts/Ann-Lee.md", contactFileContent annLee, 1, 2⟩,
      ⟨sl "Contacts/readme.md", sl "no frontmatter here", 3, 4⟩,
      ⟨sl "Contacts/noname.md", sl "---\ntitle: hello\n---\n\nbody", 5, 6⟩]
    folders := [sl "Contacts"] }

/-- A store holding Bob's document under the old name. -/
def bobVault : Vault :=
  { files := [⟨sl "Contacts/Bob-Old.md", sl "old text", 0, 0⟩]
    folders := [sl "Contacts"] }

/-- The edited contact carrying the new name. -/
def bobNew : Contact := { bobNil with name := sl "Bob New" }

/-- A store already holding Ann Lee's document at the derived path. -/
def annVault : Vault :=
  { files := [⟨sl "Contacts/Ann-Lee.md", sl "ann lee text", 0, 0⟩]
    folders := [sl "Contacts"] }

/-- The colliding contact named `Ann?Lee`. -/
def annQ : Contact := { bobNil with name := sl "Ann?Lee" }

/-! ## Lemmas and claim theorems -/

theorem jsSplit_ne_nil (c : Char) (s : JStr) : jsSplit c s ≠ [] := by
  cases s with
  | nil => simp [jsSplit]
  | cons a rest =>
    simp only [jsSplit]
    split
    · simp
    · split <;> simp

theorem jsSplit_not_mem {c : Char} {l : JStr} (h : c ∉ l) : jsSplit c l = [l] := by
  induction l with
  | nil => rfl
  | cons a rest ih =>
    simp only [List.mem_cons, not_or] at h
    simp only [jsSplit]
    rw [if_neg (fun hh => h.1 hh.symm)]
    rw [ih h.2]

theorem jsSplit_append_cons {c : Char} {l : JStr} (h : c ∉ l) (rest : JStr) :
    jsSplit c (l ++ c :: rest) = l :: jsSplit c rest := by
  induction l with
  | nil => simp [jsSplit]
  | cons a t ih =>
    simp only [List.mem_cons, not_or] at h
    simp only [List.cons_append, jsSplit]
    rw [if_neg (fun hh => h.1 hh.symm)]
    simp only [List.append_eq]
    rw [ih h.2]

theorem joinChar_jsSplit (c : Char) (s : JStr) : joinChar c (jsSplit c s) = s := by
  induction s with
  | nil => rfl
  | cons a rest ih =>
    simp only [jsSplit]
    cases hsp : jsSplit c rest with
    | nil => exact absurd hsp (jsSplit_ne_nil c rest)
    | cons p ps =>
      rw [hsp] at ih
      by_cases h : a = c
      · rw [if_pos h]
        subst h
        cases ps with
        | nil => simp [joinChar] at ih ⊢; exact ih
        | cons q qs => simp [joinChar] at ih ⊢; exact ih
      · rw [if_neg h]
        cases ps with
        | nil => simp [joinChar] at ih ⊢; rw [ih]
        | cons q qs => simp [joinChar] at ih ⊢; exact ih

theorem jsSplit_joinChar (c : Char) (lines : List JStr) (hne : lines ≠ [])
    (h : ∀ l ∈ lines, c ∉ l) : jsSplit c (joinChar c lines) = lines := by
  induction lines with
  | nil => exact absurd rfl hne
  | cons l ls ih =>
    cases ls with
    | nil => exact jsSplit_not_mem (h l (by simp))
    | cons l2 ls2 =>
      show jsSplit c (l ++ c :: joinChar c (l2 :: ls2)) = l :: l2 :: ls2
      rw [jsSplit_append_cons (h l (by simp))]
      rw [ih (by simp) (fun x hx => h x (by simp [hx]))]

theorem jsTrim_space_cons (s : JStr) : jsTrim (' ' :: s) = jsTrim s := by
  simp [jsTrim, List.dropWhile_cons, isSpaceCh]

theorem startsW_append_self (p t : JStr) : startsW p (p ++ t) = true := by
  induction p with
  | nil => rfl
  | cons a ps ih => simp [startsW, ih]

theorem splitOnFirst_self (pat t : JStr) (hp : pat ≠ []) :
    splitOnFirst pat (pat ++ t) = some ([], t) := by
  cases pat with
  | nil => exact absurd rfl hp
  | cons p ps =>
    rw [List.cons_append]
    simp only [splitOnFirst]
    rw [← List.cons_append, if_pos (startsW_append_self _ _)]
    rw [List.drop_left]

theorem hasNLDash_tail {a : Char} {s : JStr} (h : hasNLDash (a :: s) = false) :
    hasNLDash s = false := by
  cases s with
  | nil => rfl
  | cons b r =>
    simp only [hasNLDash, Bool.or_eq_false_iff] at h
    exact h.2

theorem hasNLDash_of_not_mem {l : JStr} (h : '\n' ∉ l) : hasNLDash l = false := by
  induction l with
  | nil => rfl
  | cons a t ih =>
    have ha : a ≠ '\n' := fun hh => h (by simp [hh])
    have ht : '\n' ∉ t := fun hh => h (by simp [hh])
    cases t with
    | nil => rfl
    | cons b r =>
      simp only [hasNLDash, Bool.or_eq_false_iff]
      exact ⟨by simp [ha], ih ht⟩

theorem hasNLDash_append {l s : JStr} (hl : '\n' ∉ l) (hs : hasNLDash s = false) :
    hasNLDash (l ++ s) = false := by
  induction l with
  | nil => simpa
  | cons a t ih =>
    have ha : a ≠ '\n' := fun hh => hl (by simp [hh])
    have ht : '\n' ∉ t := fun hh => hl (by simp [hh])
    rw [List.cons_append]
    cases htt : t ++ s with
    | nil => rfl
    | cons b r =>
      simp only [hasNLDash, Bool.or_eq_false_iff]
      refine ⟨by simp [ha], ?_⟩
      rw [← htt]
      exact ih ht

theorem joinChar_head_ne {c : Char} (lines : List JStr) (hc : c ≠ '-')
    (hh : ∀ l ∈ lines, l.head? ≠ some '-') :
    (joinChar c lines).head? ≠ some '-' := by
  induction lines with
  | nil => simp [joinChar]
  | cons l ls ih =>
    cases ls with
    | nil => exact hh l (by simp)
    | cons l2 ls2 =>
      show (l ++ c :: joinChar c (l2 :: ls2)).head? ≠ some '-'
      cases l with
      | nil => simpa using hc
      | cons b t =>
        have := hh (b :: t) (by simp)
        simpa using this

theorem hasNLDash_joinChar (lines : List JStr)
    (h : ∀ l ∈ lines, '\n' ∉ l) (hh : ∀ l ∈ lines, l.head? ≠ some '-') :
    hasNLDash (joinChar '\n' lines) = false := by
  induction lines with
  | nil => rfl
  | cons l ls ih =>
    cases ls with
    | nil => exact hasNLDash_of_not_mem (h l (by simp))
    | cons l2 ls2 =>
      show hasNLDash (l ++ '\n' :: joinChar '\n' (l2 :: ls2)) = false
      apply hasNLDash_append (h l (by simp))
      have hhead : (joinChar '\n' (l2 :: ls2)).head? ≠ some '-' :=
        joinChar_head_ne (l2 :: ls2) (by decide) (fun x hx => hh x (by simp [hx]))
      have hrest : hasNLDash (joinChar '\n' (l2 :: ls2)) = false :=
        ih (fun x hx => h x (by simp [hx])) (fun x hx => hh x (by simp [hx]))
      cases hj : joinChar '\n' (l2 :: ls2) with
      | nil => rfl
      | cons b r =>
        rw [hj] at hhead hrest
        simp only [hasNLDash, Bool.or_eq_false_iff]
        refine ⟨?_, hrest⟩
        simp only [List.head?] at hhead
        simp only [Bool.and_eq_false_iff, decide_eq_false_iff_not]
        exact Or.inr fun hb => hhead (by rw [hb])

theorem splitOnFirst_nldash (t : JStr) : ∀ (s : JStr), hasNLDash s = false →
    splitOnFirst ['\n', '-', '-', '-'] (s ++ ['\n', '-', '-', '-'] ++ t) = some (s, t) := by
  intro s
  induction s with
  | nil =>
    intro _
    rw [List.nil_append]
    exact splitOnFirst_self _ t (by simp)
  | cons a s' ih =>
    intro h
    have hW : startsW ['\n', '-', '-', '-'] (a :: (s' ++ '\n' :: '-' :: '-' :: '-' :: t)) = false := by
      cases s' with
      | nil => simp [startsW]
      | cons b s'' =>
        have hb : ¬(a = '\n' ∧ b = '-') := by
          intro hab
          simp [hasNLDash, hab.1, hab.2] at h
        simp [startsW]
        intro h1 h2
        exact absurd ⟨h1.symm, h2.symm⟩ hb
    rw [List.append_assoc, List.cons_append]
    simp only [splitOnFirst]
    rw [if_neg (by simp [hW])]
    rw [← List.append_assoc, ih (hasNLDash_tail h)]

theorem stepFm_line (acc : Fm) (k v : JStr) (hk : k ≠ []) (hkc : ':' ∉ k)
    (hkt : jsTrim k = k) (hvt : ∀ p ∈ jsSplit ':' v, jsTrim p = p) :
    stepFm acc (k ++ ':' :: ' ' :: v) = insertKV acc k v := by
  obtain ⟨p, ps, hsp⟩ : ∃ p ps, jsSplit ':' v = p :: ps := by
    cases hx : jsSplit ':' v with
    | nil => exact absurd hx (jsSplit_ne_nil _ _)
    | cons p ps => exact ⟨p, ps, rfl⟩
  have h1 : jsSplit ':' (k ++ ':' :: ' ' :: v) = k :: (' ' :: p) :: ps := by
    rw [jsSplit_append_cons hkc]
    congr 1
    simp only [jsSplit]
    rw [if_neg (by decide), hsp]
  have hps : ∀ x ∈ ps, jsTrim x = x := fun x hx => hvt x (by rw [hsp]; simp [hx])
  have hp : jsTrim p = p := hvt p (by rw [hsp]; simp)
  unfold stepFm
  rw [h1]
  simp only [List.map_cons]
  rw [hkt, jsTrim_space_cons, hp, List.map_congr_left hps, List.map_id']
  rw [if_pos ⟨hk, by simp⟩]
  congr 1
  rw [← hsp]
  exact joinChar_jsSplit ':' v

theorem foldl_stepFm (kvl : List (JStr × JStr))
    (h : ∀ kv ∈ kvl, kv.1 ≠ [] ∧ ':' ∉ kv.1 ∧ jsTrim kv.1 = kv.1 ∧
      ∀ p ∈ jsSplit ':' kv.2, jsTrim p = p) :
    ∀ acc, List.foldl stepFm acc (kvl.map lineOf) =
      List.foldl (fun a kv => insertKV a kv.1 kv.2) acc kvl := by
  induction kvl with
  | nil => intro acc; rfl
  | cons kv rest ih =>
    intro acc
    simp only [List.map_cons, List.foldl_cons]
    obtain ⟨h1, h2, h3, h4⟩ := h kv (by simp)
    rw [show lineOf kv = kv.1 ++ ':' :: ' ' :: kv.2 from rfl,
      stepFm_line acc kv.1 kv.2 h1 h2 h3 h4]
    exact ih (fun x hx => h x (by simp [hx])) _

theorem fmGet_insert_self (fm : Fm) (k v : JStr) : fmGet (insertKV fm k v) k = some v := by
  induction fm with
  | nil => simp [insertKV, fmGet]
  | cons kv rest ih =>
    obtain ⟨k', v'⟩ := kv
    simp only [insertKV]
    by_cases h : k' = k
    · rw [if_pos h]; simp [fmGet]
    · rw [if_neg h]; simp only [fmGet]; rw [if_neg h]; exact ih

theorem fmGet_insert_other (fm : Fm) (k v k' : JStr) (h : k ≠ k') :
    fmGet (insertKV fm k v) k' = fmGet fm k' := by
  induction fm with
  | nil => simp [insertKV, fmGet, h]
  | cons kv rest ih =>
    obtain ⟨k1, v1⟩ := kv
    simp only [insertKV]
    by_cases h1 : k1 = k
    · rw [if_pos h1]
      simp only [fmGet]
      rw [if_neg h, if_neg (h1 ▸ h)]
    · rw [if_neg h1]
      simp only [fmGet]
      by_cases h2 : k1 = k'
      · rw [if_pos h2, if_pos h2]
      · rw [if_neg h2, if_neg h2]; exact ih

theorem fmGet_foldl_not_mem (kvl : List (JStr × JStr)) (k : JStr)
    (h : k ∉ kvl.map Prod.fst) :
    ∀ acc, fmGet (List.foldl (fun a kv => insertKV a kv.1 kv.2) acc kvl) k = fmGet acc k := by
  induction kvl with
  | nil => intro acc; rfl
  | cons kv rest ih =>
    intro acc
    simp only [List.map_cons, List.mem_cons, not_or] at h
    simp only [List.foldl_cons]
    rw [ih h.2, fmGet_insert_other _ _ _ _ (fun hh => h.1 hh.symm)]

theorem fmGet_foldl_mem (kvl : List (JStr × JStr)) (k v : JStr)
    (hmem : (k, v) ∈ kvl) (hnd : (kvl.map Prod.fst).Nodup) :
    ∀ acc, fmGet (List.foldl (fun a kv => insertKV a kv.1 kv.2) acc kvl) k = some v := by
  induction kvl with
  | nil => exact absurd hmem (by simp)
  | cons kv rest ih =>
    intro acc
    simp only [List.map_cons, List.nodup_cons] at hnd
    simp only [List.foldl_cons]
    rcases List.mem_cons.mp hmem with heq | hrest
    · have hk : kv.1 = k := by rw [← heq]
      have hv : kv.2 = v := by rw [← heq]
      rw [fmGet_foldl_not_mem rest k (hk ▸ hnd.1), hk, hv, fmGet_insert_self]
    · exact ih hrest hnd.2 _

theorem createFrontMatter_eq (c : Contact) :
    createFrontMatter c = joinChar '\n' ((kvsOf c).map lineOf) := by
  unfold createFrontMatter kvsOf
  by_cases h1 : truthyS c.company <;> by_cases h2 : truthyS c.title <;>
    by_cases h3 : truthyT c.tags <;> by_cases h4 : truthyS c.last_contacted <;>
    by_cases h5 : truthyS c.next_contact <;> by_cases h6 : truthyS c.contact_frequency <;>
    simp only [h1, h2, h3, h4, h5, h6, if_true, if_false, List.append_nil, List.nil_append,
      List.cons_append, List.append_assoc, List.map_cons, List.map_append, List.map_nil,
      ite_true, ite_false] <;>
    rfl

theorem kvsOf_ne_nil (c : Contact) : kvsOf c ≠ [] := by
  simp [kvsOf]

theorem mem_ite_singleton {α : Type} {b : Prop} [Decidable b] {x y : α} :
    (y ∈ if b then [x] else []) ↔ b ∧ y = x := by
  split <;> simp_all

theorem kvsOf_props (c : Contact) (h : WF c) : ∀ k v, (k, v) ∈ kvsOf c →
    (k ≠ [] ∧ ':' ∉ k ∧ '\n' ∉ k ∧ jsTrim k = k ∧ k.head? ≠ some '-') ∧
      ('\n' ∉ v ∧ ∀ p ∈ jsSplit ':' v, jsTrim p = p) := by
  obtain ⟨hn, hvn, he, hp, hco, hti, hlc, hnc, hcf, hcr, hmo, htg⟩ := h
  have htags : truthyT c.tags → ('\n' ∉ joinStr (sl ", ") (c.tags.getD []) ∧
      ∀ p ∈ jsSplit ':' (joinStr (sl ", ") (c.tags.getD [])), jsTrim p = p) := by
    intro ht
    rcases htg with hemp | hok
    · exfalso
      cases hx : c.tags with
      | none => rw [hx] at ht; simp [truthyT] at ht
      | some l =>
        rw [hx] at ht hemp
        simp [truthyT] at ht
        simp only [Option.getD_some] at hemp
        exact ht hemp
    · exact ⟨hok.2.1.1, hok.2.1.2⟩
  intro k v hkv
  simp only [kvsOf, List.append_assoc, List.mem_append, List.mem_cons,
    List.not_mem_nil, or_false, mem_ite_singleton, Prod.mk.injEq] at hkv
  rcases hkv with (⟨rfl, rfl⟩ | ⟨rfl, rfl⟩ | ⟨rfl, rfl⟩) | ⟨hb, rfl, rfl⟩ | ⟨hb, rfl, rfl⟩ |
    ⟨hb, rfl, rfl⟩ | ⟨hb, rfl, rfl⟩ | ⟨hb, rfl, rfl⟩ | ⟨hb, rfl, rfl⟩ | ⟨rfl, rfl⟩ | ⟨rfl, rfl⟩
  · exact ⟨by refine ⟨?_, ?_, ?_, ?_, ?_⟩ <;> decide, hvn.1, hvn.2⟩
  · exact ⟨by refine ⟨?_, ?_, ?_, ?_, ?_⟩ <;> decide, he.1, he.2⟩
  · exact ⟨by refine ⟨?_, ?_, ?_, ?_, ?_⟩ <;> decide, hp.1, hp.2⟩
  · exact ⟨by refine ⟨?_, ?_, ?_, ?_, ?_⟩ <;> decide, hco.1, hco.2⟩
  · exact ⟨by refine ⟨?_, ?_, ?_, ?_, ?_⟩ <;> decide, hti.1, hti.2⟩
  · exact ⟨by refine ⟨?_, ?_, ?_, ?_, ?_⟩ <;> decide, (htags hb).1, (htags hb).2⟩
  · exact ⟨by refine ⟨?_, ?_, ?_, ?_, ?_⟩ <;> decide, hlc.1, hlc.2⟩
  · exact ⟨by refine ⟨?_, ?_, ?_, ?_, ?_⟩ <;> decide, hnc.1, hnc.2⟩
  · exact ⟨by refine ⟨?_, ?_, ?_, ?_, ?_⟩ <;> decide, hcf.1, hcf.2⟩
  · exact ⟨by refine ⟨?_, ?_, ?_, ?_, ?_⟩ <;> decide, hcr.1, hcr.2⟩
  · exact ⟨by refine ⟨?_, ?_, ?_, ?_, ?_⟩ <;> decide, hmo.1, hmo.2⟩

theorem sublist_ite_singleton {α : Type} {b : Prop} [Decidable b] {x : α} :
    List.Sublist (if b then [x] else []) [x] := by
  split
  · exact List.Sublist.refl _
  · exact List.nil_sublist _

theorem kvsOf_keys_sub (c : Contact) : List.Sublist ((kvsOf c).map Prod.fst) theKeys := by
  unfold kvsOf
  simp only [List.map_append, List.map_cons, List.map_nil, apply_ite (List.map Prod.fst)]
  show List.Sublist
    ([sl "name", sl "email", sl "phone"] ++ _ ++ _ ++ _ ++ _ ++ _ ++ _ ++ [sl "created", sl "modified"])
    theKeys
  have hK : theKeys = [sl "name", sl "email", sl "phone"] ++ [sl "company"] ++ [sl "title"] ++
      [sl "tags"] ++ [sl "last_contacted"] ++ [sl "next_contact"] ++
      [sl "contact_frequency"] ++ [sl "created", sl "modified"] := rfl
  rw [hK]
  exact ((((((List.Sublist.refl _).append sublist_ite_singleton).append
    sublist_ite_singleton).append sublist_ite_singleton).append
    sublist_ite_singleton).append sublist_ite_singleton).append
    sublist_ite_singleton |>.append (List.Sublist.refl _)

theorem kvsOf_keys_nodup (c : Contact) : ((kvsOf c).map Prod.fst).Nodup :=
  List.Nodup.sublist (kvsOf_keys_sub c) (by decide)

theorem kvs_lines_nl (c : Contact) (h : WF c) :
    ∀ l ∈ (kvsOf c).map lineOf, '\n' ∉ l := by
  intro l hl
  obtain ⟨kv, hkv, rfl⟩ := List.mem_map.mp hl
  have hprops := kvsOf_props c h kv.1 kv.2 (by rwa [Prod.mk.eta])
  intro hmem
  simp only [lineOf, List.mem_append, List.mem_cons] at hmem
  rcases hmem with hmem | hmem | hmem
  · exact hprops.1.2.2.1 hmem
  · exact absurd hmem (by decide)
  · rcases hmem with hmem | hmem
    · exact absurd hmem (by decide)
    · exact hprops.2.1 hmem

theorem kvs_lines_head (c : Contact) (h : WF c) :
    ∀ l ∈ (kvsOf c).map lineOf, l.head? ≠ some '-' := by
  intro l hl
  obtain ⟨kv, hkv, rfl⟩ := List.mem_map.mp hl
  have hprops := kvsOf_props c h kv.1 kv.2 (by rwa [Prod.mk.eta])
  show (kv.1 ++ ':' :: ' ' :: kv.2).head? ≠ some '-'
  cases hx : kv.1 with
  | nil => exact absurd hx hprops.1.1
  | cons b t =>
    have := hprops.1.2.2.2.2
    rw [hx] at this
    simpa using this

theorem parseYaml_enc (c : Contact) (h : WF c) :
    parseYaml (createFrontMatter c) =
      List.foldl (fun a kv => insertKV a kv.1 kv.2) [] (kvsOf c) := by
  rw [createFrontMatter_eq]
  unfold parseYaml
  rw [jsSplit_joinChar '\n' _ (fun hm => kvsOf_ne_nil c (by simpa using hm))
    (kvs_lines_nl c h)]
  exact foldl_stepFm _ (fun kv hkv =>
    (fun p => ⟨p.1.1, p.1.2.1, p.1.2.2.2.1, p.2.2⟩)
      (kvsOf_props c h kv.1 kv.2 (by rwa [Prod.mk.eta]))) []

theorem extract_enc (c : Contact) (h : WF c) :
    extractFrontMatter (contactFileContent c) = some (parseYaml (createFrontMatter c)) := by
  have hnd : hasNLDash (createFrontMatter c) = false := by
    rw [createFrontMatter_eq]
    exact hasNLDash_joinChar _ (kvs_lines_nl c h) (kvs_lines_head c h)
  have hsplit : contactFileContent c =
      sl "---\n" ++ ((createFrontMatter c ++ ['\n', '-', '-', '-']) ++
        (sl "\n\n# " ++ (c.name ++ (sl "\n\n" ++ c.notes.getD [])))) := by
    unfold contactFileContent
    simp only [List.append_assoc]
    rfl
  rw [hsplit]
  unfold extractFrontMatter
  rw [if_pos (by simp [startsW_append_self])]
  have hdrop :
      (sl "---\n" ++ ((createFrontMatter c ++ ['\n', '-', '-', '-']) ++
        (sl "\n\n# " ++ (c.name ++ (sl "\n\n" ++ c.notes.getD []))))).drop 4 =
      (createFrontMatter c ++ ['\n', '-', '-', '-']) ++
        (sl "\n\n# " ++ (c.name ++ (sl "\n\n" ++ c.notes.getD []))) := by
    have h4 : (4 : Nat) = (sl "---\n").length := rfl
    rw [h4, List.drop_left]
  rw [hdrop, show sl "\n---" = ['\n', '-', '-', '-'] from rfl,
    splitOnFirst_nldash _ (createFrontMatter c) hnd]

theorem fmEnc_get_mem (c : Contact) (k v : JStr) (hmem : (k, v) ∈ kvsOf c) :
    fmGet (fmEnc c) k = some v :=
  fmGet_foldl_mem _ _ _ hmem (kvsOf_keys_nodup c) []

theorem fmEnc_name (c : Contact) : fmGet (fmEnc c) (sl "name") = some c.name :=
  fmEnc_get_mem c _ _ (by simp [kvsOf])

theorem fmEnc_email (c : Contact) : fmGet (fmEnc c) (sl "email") = some (interpU c.email) :=
  fmEnc_get_mem c _ _ (by simp [kvsOf])

theorem fmEnc_phone (c : Contact) : fmGet (fmEnc c) (sl "phone") = some (interpU c.phone) :=
  fmEnc_get_mem c _ _ (by simp [kvsOf])

theorem fmEnc_created (c : Contact) : fmGet (fmEnc c) (sl "created") = some c.created :=
  fmEnc_get_mem c _ _ (by simp [kvsOf])

theorem fmEnc_modified (c : Contact) : fmGet (fmEnc c) (sl "modified") = some c.modified :=
  fmEnc_get_mem c _ _ (by simp [kvsOf])

theorem fmEnc_get_none (c : Contact) (k : JStr)
    (hnot : ∀ v, (k, v) ∈ kvsOf c → False) : fmGet (fmEnc c) k = none := by
  unfold fmEnc
  rw [fmGet_foldl_not_mem]
  · rfl
  · intro hmem
    obtain ⟨kv, hkv, hfst⟩ := List.mem_map.mp hmem
    exact hnot kv.2 (by rw [← hfst, Prod.mk.eta]; exact hkv)

theorem fmEnc_company (c : Contact) :
    fmGet (fmEnc c) (sl "company") = presentVal c.company := by
  unfold presentVal
  by_cases hb : truthyS c.company
  · rw [if_pos hb]
    exact fmEnc_get_mem c _ _ (by simp [kvsOf, mem_ite_singleton, hb])
  · rw [if_neg hb]
    apply fmEnc_get_none
    intro v hkv
    simp only [kvsOf, List.append_assoc, List.mem_append, List.mem_cons,
      List.not_mem_nil, or_false, mem_ite_singleton, Prod.mk.injEq] at hkv
    rcases hkv with (⟨h1, _⟩ | ⟨h1, _⟩ | ⟨h1, _⟩) | ⟨hb', h1, _⟩ | ⟨hb', h1, _⟩ |
      ⟨hb', h1, _⟩ | ⟨hb', h1, _⟩ | ⟨hb', h1, _⟩ | ⟨hb', h1, _⟩ | ⟨h1, _⟩ | ⟨h1, _⟩ <;>
      first
        | exact absurd h1 (by decide)
        | exact hb hb'

theorem fmEnc_title (c : Contact) :
    fmGet (fmEnc c) (sl "title") = presentVal c.title := by
  unfold presentVal
  by_cases hb : truthyS c.title
  · rw [if_pos hb]
    exact fmEnc_get_mem c _ _ (by simp [kvsOf, mem_ite_singleton, hb])
  · rw [if_neg hb]
    apply fmEnc_get_none
    intro v hkv
    simp only [kvsOf, List.append_assoc, List.mem_append, List.mem_cons,
      List.not_mem_nil, or_false, mem_ite_singleton, Prod.mk.injEq] at hkv
    rcases hkv with (⟨h1, _⟩ | ⟨h1, _⟩ | ⟨h1, _⟩) | ⟨hb', h1, _⟩ | ⟨hb', h1, _⟩ |
      ⟨hb', h1, _⟩ | ⟨hb', h1, _⟩ | ⟨hb', h1, _⟩ | ⟨hb', h1, _⟩ | ⟨h1, _⟩ | ⟨h1, _⟩ <;>
      first
        | exact absurd h1 (by decide)
        | exact hb hb'

theorem fmEnc_lc (c : Contact) :
    fmGet (fmEnc c) (sl "last_contacted") = presentVal c.last_contacted := by
  unfold presentVal
  by_cases hb : truthyS c.last_contacted
  · rw [if_pos hb]
    exact fmEnc_get_mem c _ _ (by simp [kvsOf, mem_ite_singleton, hb])
  · rw [if_neg hb]
    apply fmEnc_get_none
    intro v hkv
    simp only [kvsOf, List.append_assoc, List.mem_append, List.mem_cons,
      List.not_mem_nil, or_false, mem_ite_singleton, Prod.mk.injEq] at hkv
    rcases hkv with (⟨h1, _⟩ | ⟨h1, _⟩ | ⟨h1, _⟩) | ⟨hb', h1, _⟩ | ⟨hb', h1, _⟩ |
      ⟨hb', h1, _⟩ | ⟨hb', h1, _⟩ | ⟨hb', h1, _⟩ | ⟨hb', h1, _⟩ | ⟨h1, _⟩ | ⟨h1, _⟩ <;>
      first
        | exact absurd h1 (by decide)
        | exact hb hb'

theorem fmEnc_nc (c : Contact) :
    fmGet (fmEnc c) (sl "next_contact") = presentVal c.next_contact := by
  unfold presentVal
  by_cases hb : truthyS c.next_contact
  · rw [if_pos hb]
    exact fmEnc_get_mem c _ _ (by simp [kvsOf, mem_ite_singleton, hb])
  · rw [if_neg hb]
    apply fmEnc_get_none
    intro v hkv
    simp only [kvsOf, List.append_assoc, List.mem_append, List.mem_cons,
      List.not_mem_nil, or_false, mem_ite_singleton, Prod.mk.injEq] at hkv
    rcases hkv with (⟨h1, _⟩ | ⟨h1, _⟩ | ⟨h1, _⟩) | ⟨hb', h1, _⟩ | ⟨hb', h1, _⟩ |
      ⟨hb', h1, _⟩ | ⟨hb', h1, _⟩ | ⟨hb', h1, _⟩ | ⟨hb', h1, _⟩ | ⟨h1, _⟩ | ⟨h1, _⟩ <;>
      first
        | exact absurd h1 (by decide)
        | exact hb hb'

theorem fmEnc_cf (c : Contact) :
    fmGet (fmEnc c) (sl "contact_frequency") = presentVal c.contact_frequency := by
  unfold presentVal
  by_cases hb : truthyS c.contact_frequency
  · rw [if_pos hb]
    exact fmEnc_get_mem c _ _ (by simp [kvsOf, mem_ite_singleton, hb])
  · rw [if_neg hb]
    apply fmEnc_get_none
    intro v hkv
    simp only [kvsOf, List.append_assoc, List.mem_append, List.mem_cons,
      List.not_mem_nil, or_false, mem_ite_singleton, Prod.mk.injEq] at hkv
    rcases hkv with (⟨h1, _⟩ | ⟨h1, _⟩ | ⟨h1, _⟩) | ⟨hb', h1, _⟩ | ⟨hb', h1, _⟩ |
      ⟨hb', h1, _⟩ | ⟨hb', h1, _⟩ | ⟨hb', h1, _⟩ | ⟨hb', h1, _⟩ | ⟨h1, _⟩ | ⟨h1, _⟩ <;>
      first
        | exact absurd h1 (by decide)
        | exact hb hb'

theorem fmEnc_tags (c : Contact) :
    fmGet (fmEnc c) (sl "tags") =
      if truthyT c.tags then some (joinStr (sl ", ") (c.tags.getD [])) else none := by
  by_cases hb : truthyT c.tags
  · rw [if_pos hb]
    exact fmEnc_get_mem c _ _ (by simp [kvsOf, mem_ite_singleton, hb])
  · rw [if_neg hb]
    apply fmEnc_get_none
    intro v hkv
    simp only [kvsOf, List.append_assoc, List.mem_append, List.mem_cons,
      List.not_mem_nil, or_false, mem_ite_singleton, Prod.mk.injEq] at hkv
    rcases hkv with (⟨h1, _⟩ | ⟨h1, _⟩ | ⟨h1, _⟩) | ⟨hb', h1, _⟩ | ⟨hb', h1, _⟩ |
      ⟨hb', h1, _⟩ | ⟨hb', h1, _⟩ | ⟨hb', h1, _⟩ | ⟨hb', h1, _⟩ | ⟨h1, _⟩ | ⟨h1, _⟩ <;>
      first
        | exact absurd h1 (by decide)
        | exact hb hb'

theorem fmEnc_notes (c : Contact) : fmGet (fmEnc c) (sl "notes") = none := by
  apply fmEnc_get_none
  intro v hkv
  simp only [kvsOf, List.append_assoc, List.mem_append, List.mem_cons,
    List.not_mem_nil, or_false, mem_ite_singleton, Prod.mk.injEq] at hkv
  rcases hkv with (⟨h1, _⟩ | ⟨h1, _⟩ | ⟨h1, _⟩) | ⟨hb', h1, _⟩ | ⟨hb', h1, _⟩ |
    ⟨hb', h1, _⟩ | ⟨hb', h1, _⟩ | ⟨hb', h1, _⟩ | ⟨hb', h1, _⟩ | ⟨h1, _⟩ | ⟨h1, _⟩ <;>
    exact absurd h1 (by decide)

theorem decode_encode (c : Contact) (h : WF c) (path : JStr) (ct mt : Nat) :
    getContactFromFile ⟨path, contactFileContent c, ct, mt⟩ = some (decodedOf c ct mt) := by
  show (match extractFrontMatter (contactFileContent c) with
        | none => none
        | some fm => decodeFm fm ct mt) = some (decodedOf c ct mt)
  rw [extract_enc c h, parseYaml_enc c h]
  show decodeFm (fmEnc c) ct mt = some (decodedOf c ct mt)
  unfold decodeFm
  rw [fmEnc_name, fmEnc_email, fmEnc_phone, fmEnc_company, fmEnc_title, fmEnc_notes,
    fmEnc_tags, fmEnc_created, fmEnc_modified, fmEnc_lc, fmEnc_nc, fmEnc_cf]
  rw [if_pos (by simp [truthyS, h.1])]
  have htgfacts : truthyT c.tags = true →
      joinStr (sl ", ") (c.tags.getD []) ≠ [] ∧
        (jsSplit ',' (joinStr (sl ", ") (c.tags.getD []))).map jsTrim = c.tags.getD [] := by
    intro hb
    obtain ⟨-, -, -, -, -, -, -, -, -, -, -, htg⟩ := h
    rcases htg with hemp | hok
    · exfalso
      cases hx : c.tags with
      | none => rw [hx] at hb; simp [truthyT] at hb
      | some l =>
        rw [hx] at hb hemp
        simp [truthyT] at hb
        simp only [Option.getD_some] at hemp
        exact hb hemp
    · exact ⟨hok.1, hok.2.2⟩
  cases hb : truthyT c.tags with
  | false =>
    simp only [decodedOf, hb, Bool.false_eq_true, if_false]
    rfl
  | true =>
    have hf := htgfacts hb
    have hts : truthyS (some (joinStr (sl ", ") (c.tags.getD []))) = true := by
      cases hjx : joinStr (sl ", ") (c.tags.getD []) with
      | nil => exact absurd hjx hf.1
      | cons a t => simp [truthyS]
    simp only [decodedOf, hb, eq_self_iff_true, if_true, Option.getD_some]
    rw [if_pos hts, hf.2]

theorem renameV_lookup_old (v : Vault) (old new : JStr) (h : old ≠ new) :
    lookupF (renameV v old new).files old = none := by
  show lookupF (v.files.map fun f => if f.path = old then { f with path := new } else f) old = none
  induction v.files with
  | nil => rfl
  | cons f fs ih =>
    simp only [List.map_cons]
    by_cases hf : f.path = old
    · rw [if_pos hf]
      show lookupF ({ f with path := new } :: _) old = none
      simp only [lookupF]
      rw [if_neg (fun hh => h hh.symm)]
      exact ih
    · rw [if_neg hf]
      simp only [lookupF]
      rw [if_neg hf]
      exact ih

theorem lookupF_map_rename_new (old new : JStr) : ∀ files : List TFile,
    (lookupF files old).isSome = true →
    (lookupF (files.map fun f => if f.path = old then { f with path := new } else f)
      new).isSome = true := by
  intro files
  induction files with
  | nil => intro h; simp [lookupF] at h
  | cons f fs ih =>
    intro h
    simp only [List.map_cons]
    by_cases hf : f.path = old
    · rw [if_pos hf]
      show (lookupF ({ f with path := new } :: _) new).isSome = true
      simp [lookupF]
    · rw [if_neg hf]
      show (lookupF (f :: _) new).isSome = true
      simp only [lookupF] at h ⊢
      rw [if_neg hf] at h
      by_cases hn : f.path = new
      · rw [if_pos hn]; rfl
      · rw [if_neg hn]; exact ih h

theorem renameV_exists_new (v : Vault) (old new : JStr)
    (h : (lookupF v.files old).isSome = true) :
    (lookupF (renameV v old new).files new).isSome = true :=
  lookupF_map_rename_new old new v.files h

theorem lookupF_map_modify (p content : JStr) : ∀ files : List TFile,
    (lookupF files p).isSome = true →
    (lookupF (files.map fun f => if f.path = p then { f with content := content } else f)
      p).map TFile.content = some content := by
  intro files
  induction files with
  | nil => intro h; simp [lookupF] at h
  | cons f fs ih =>
    intro h
    simp only [List.map_cons]
    by_cases hf : f.path = p
    · rw [if_pos hf]
      show (lookupF ({ f with content := content } :: _) p).map TFile.content = some content
      simp [lookupF, hf]
    · rw [if_neg hf]
      show (lookupF (f :: _) p).map TFile.content = some content
      simp only [lookupF] at h ⊢
      rw [if_neg hf] at h ⊢
      exact ih h

theorem modifyV_lookup_content (v : Vault) (p content : JStr)
    (h : (lookupF v.files p).isSome = true) :
    (lookupF (modifyV v p content).files p).map TFile.content = some content :=
  lookupF_map_modify p content v.files h

theorem modifyV_paths (v : Vault) (p content : JStr) :
    (modifyV v p content).files.map TFile.path = v.files.map TFile.path := by
  show (v.files.map fun f => if f.path = p then { f with content := content } else f).map
    TFile.path = v.files.map TFile.path
  rw [List.map_map]
  apply List.map_congr_left
  intro f _
  by_cases hf : f.path = p
  · simp [Function.comp, hf]
  · simp [Function.comp, hf]

theorem lookupF_of_no_path (files : List TFile) (p : JStr)
    (h : ∀ f ∈ files, f.path ≠ p) : lookupF files p = none := by
  induction files with
  | nil => rfl
  | cons f fs ih =>
    simp only [lookupF]
    rw [if_neg (h f (by simp))]
    exact ih (fun x hx => h x (by simp [hx]))

theorem lookupF_none_iff (files : List TFile) (p : JStr) :
    lookupF files p = none ↔ ∀ f ∈ files, f.path ≠ p := by
  constructor
  · intro h f hf hp
    induction files with
    | nil => simp at hf
    | cons g gs ih =>
      simp only [lookupF] at h
      rcases List.mem_cons.mp hf with rfl | hmem
      · rw [if_pos hp] at h; exact absurd h (by simp)
      · by_cases hg : g.path = p
        · rw [if_pos hg] at h; exact absurd h (by simp)
        · rw [if_neg hg] at h; exact ih h hmem
  · exact lookupF_of_no_path files p

theorem foldl_collect (files : List TFile) :
    ∀ acc, files.foldl
      (fun acc f =>
        match getContactFromFile f with
        | some c => acc ++ [c]
        | none => acc) acc = acc ++ files.filterMap getContactFromFile := by
  induction files with
  | nil => intro acc; simp
  | cons f fs ih =>
    intro acc
    simp only [List.foldl_cons, List.filterMap_cons]
    cases hd : getContactFromFile f with
    | none => rw [ih acc]
    | some c => rw [ih (acc ++ [c])]; simp

theorem daysInMonth_ge (y m : Int) : 28 ≤ daysInMonth y m := by
  unfold daysInMonth
  split
  · split <;> omega
  · split <;> omega

theorem daysInMonth_le (y m : Int) : daysInMonth y m ≤ 31 := by
  unfold daysInMonth
  split
  · split <;> omega
  · split <;> omega

theorem daysInMonth_11 (y : Int) : daysInMonth y 11 = 31 := by
  unfold daysInMonth
  norm_num

theorem monthNorm_lt (y m : Int) (h : m < 12) : monthNorm y m = (y, m) := by
  unfold monthNorm
  rw [if_neg (by omega)]

theorem monthNorm_ge (y m : Int) (h : 12 ≤ m) : monthNorm y m = (y + 1, m - 12) := by
  unfold monthNorm
  rw [if_pos h]

theorem normD_succ (fuel : Nat) (y m d : Int) : normD (fuel + 1) y m d =
    if daysInMonth (monthNorm y m).1 (monthNorm y m).2 < d then
      normD fuel (monthNorm y m).1 ((monthNorm y m).2 + 1)
        (d - daysInMonth (monthNorm y m).1 (monthNorm y m).2)
    else ((monthNorm y m).1, (monthNorm y m).2, d) := rfl

theorem addDays7_spec (dt : DT) (h : validDT dt) :
    validDT (addDays dt 7) ∧ strictLater dt (addDays dt 7) ∧
      dt.year ≤ (addDays dt 7).year ∧ (addDays dt 7).year ≤ dt.year + 1 ∧
      (addDays dt 7).hour = dt.hour ∧ (addDays dt 7).minute = dt.minute := by
  obtain ⟨hm0, hm1, hd0, hd1, hh0, hh1, hn0, hn1⟩ := h
  unfold addDays
  rw [show (24 : Nat) = 23 + 1 from rfl, normD_succ, monthNorm_lt dt.year dt.month (by omega)]
  try dsimp only
  by_cases hov : daysInMonth dt.year dt.month < dt.day + 7
  · rw [if_pos hov, show (23 : Nat) = 22 + 1 from rfl, normD_succ]
    try dsimp only
    have hge := daysInMonth_ge dt.year dt.month
    by_cases h12 : dt.month + 1 < 12
    · rw [monthNorm_lt _ _ h12]
      try dsimp only
      have hge2 := daysInMonth_ge dt.year (dt.month + 1)
      rw [if_neg (by omega)]
      unfold validDT strictLater
      try dsimp only
      refine ⟨⟨by omega, by omega, by omega, by omega, by omega, by omega, by omega, by omega⟩,
        Or.inl (by omega), by omega, by omega, rfl, rfl⟩
    · rw [monthNorm_ge _ _ (by omega)]
      try dsimp only
      have hge2 := daysInMonth_ge (dt.year + 1) (dt.month + 1 - 12)
      rw [if_neg (by omega)]
      unfold validDT strictLater
      try dsimp only
      refine ⟨⟨by omega, by omega, by omega, by omega, by omega, by omega, by omega, by omega⟩,
        Or.inl (by omega), by omega, by omega, rfl, rfl⟩
  · rw [if_neg hov]
    unfold validDT strictLater
    try dsimp only
    refine ⟨⟨by omega, by omega, by omega, by omega, by omega, by omega, by omega, by omega⟩,
      Or.inr ⟨by omega, by omega⟩, by omega, by omega, rfl, rfl⟩

theorem addMonths_spec (dt : DT) (k : Int) (hk1 : 1 ≤ k) (hk3 : k ≤ 3) (h : validDT dt) :
    validDT (addMonths dt k) ∧ strictLater dt (addMonths dt k) ∧
      dt.year ≤ (addMonths dt k).year ∧ (addMonths dt k).year ≤ dt.year + 1 ∧
      (addMonths dt k).hour = dt.hour ∧ (addMonths dt k).minute = dt.minute := by
  obtain ⟨hm0, hm1, hd0, hd1, hh0, hh1, hn0, hn1⟩ := h
  have hdle := daysInMonth_le dt.year dt.month
  unfold addMonths
  rw [show (24 : Nat) = 23 + 1 from rfl, normD_succ]
  by_cases hA : dt.month + k < 12
  · rw [monthNorm_lt _ _ hA]
    try dsimp only
    by_cases hov : daysInMonth dt.year (dt.month + k) < dt.day
    · rw [if_pos hov, show (23 : Nat) = 22 + 1 from rfl, normD_succ]
      try dsimp only
      have hge := daysInMonth_ge dt.year (dt.month + k)
      by_cases h12 : dt.month + k + 1 < 12
      · rw [monthNorm_lt _ _ h12]
        try dsimp only
        have hge2 := daysInMonth_ge dt.year (dt.month + k + 1)
        rw [if_neg (by omega)]
        unfold validDT strictLater
        try dsimp only
        refine ⟨⟨by omega, by omega, by omega, by omega, by omega, by omega, by omega, by omega⟩,
          Or.inl (by omega), by omega, by omega, rfl, rfl⟩
      · rw [monthNorm_ge _ _ (by omega)]
        try dsimp only
        have hge2 := daysInMonth_ge (dt.year + 1) (dt.month + k + 1 - 12)
        rw [if_neg (by omega)]
        unfold validDT strictLater
        try dsimp only
        refine ⟨⟨by omega, by omega, by omega, by omega, by omega, by omega, by omega, by omega⟩,
          Or.inl (by omega), by omega, by omega, rfl, rfl⟩
    · rw [if_neg hov]
      unfold validDT strictLater
      try dsimp only
      refine ⟨⟨by omega, by omega, by omega, by omega, by omega, by omega, by omega, by omega⟩,
        Or.inl (by omega), by omega, by omega, rfl, rfl⟩
  · rw [monthNorm_ge _ _ (by omega)]
    try dsimp only
    by_cases hov : daysInMonth (dt.year + 1) (dt.month + k - 12) < dt.day
    · rw [if_pos hov, show (23 : Nat) = 22 + 1 from rfl, normD_succ]
      try dsimp only
      have hge := daysInMonth_ge (dt.year + 1) (dt.month + k - 12)
      rw [monthNorm_lt _ _ (by omega)]
      try dsimp only
      have hge2 := daysInMonth_ge (dt.year + 1) (dt.month + k - 12 + 1)
      rw [if_neg (by omega)]
      unfold validDT strictLater
      try dsimp only
      refine ⟨⟨by omega, by omega, by omega, by omega, by omega, by omega, by omega, by omega⟩,
        Or.inl (by omega), by omega, by omega, rfl, rfl⟩
    · rw [if_neg hov]
      unfold validDT strictLater
      try dsimp only
      refine ⟨⟨by omega, by omega, by omega, by omega, by omega, by omega, by omega, by omega⟩,
        Or.inl (by omega), by omega, by omega, rfl, rfl⟩

theorem addYears_spec (dt : DT) (h : validDT dt) :
    validDT (addYears dt) ∧ strictLater dt (addYears dt) ∧
      dt.year ≤ (addYears dt).year ∧ (addYears dt).year ≤ dt.year + 1 ∧
      (addYears dt).hour = dt.hour ∧ (addYears dt).minute = dt.minute := by
  obtain ⟨hm0, hm1, hd0, hd1, hh0, hh1, hn0, hn1⟩ := h
  have hdle := daysInMonth_le dt.year dt.month
  unfold addYears
  rw [show (24 : Nat) = 23 + 1 from rfl, normD_succ,
    monthNorm_lt (dt.year + 1) dt.month (by omega)]
  try dsimp only
  by_cases hov : daysInMonth (dt.year + 1) dt.month < dt.day
  · have hm11 : dt.month ≠ 11 := by
      intro hm
      rw [hm, daysInMonth_11] at hov
      rw [hm, daysInMonth_11] at hd1
      omega
    rw [if_pos hov, show (23 : Nat) = 22 + 1 from rfl, normD_succ]
    try dsimp only
    have hge := daysInMonth_ge (dt.year + 1) dt.month
    rw [monthNorm_lt _ _ (by omega)]
    try dsimp only
    have hge2 := daysInMonth_ge (dt.year + 1) (dt.month + 1)
    rw [if_neg (by omega)]
    unfold validDT strictLater
    try dsimp only
    refine ⟨⟨by omega, by omega, by omega, by omega, by omega, by omega, by omega, by omega⟩,
      Or.inl (by omega), by omega, by omega, rfl, rfl⟩
  · rw [if_neg hov]
    unfold validDT strictLater
    try dsimp only
    refine ⟨⟨by omega, by omega, by omega, by omega, by omega, by omega, by omega, by omega⟩,
      Or.inl (by omega), by omega, by omega, rfl, rfl⟩

theorem digVal_bounds (c : Char) (h : isDig c) : 0 ≤ digVal c ∧ digVal c ≤ 9 := by
  unfold isDig at h
  unfold digVal
  omega

theorem parseTS_valid (s : JStr) (dt : DT) (h : parseTS s = some dt) :
    validDT dt ∧ 0 ≤ dt.year ∧ dt.year ≤ 9999 := by
  unfold parseTS at h
  split at h
  · next y1 y2 y3 y4 s1 a1 a2 s2 b1 b2 s3 h1 h2 s4 n1 n2 =>
    split at h
    · next hdig =>
      dsimp only at h
      split at h
      · next hrange =>
        simp only [Option.some.injEq] at h
        subst h
        obtain ⟨hy1, hy2, hy3, hy4, -, ha1, ha2, -, hb1, hb2, -, hh1, hh2, -, hn1, hn2⟩ := hdig
        have := digVal_bounds y1 hy1
        have := digVal_bounds y2 hy2
        have := digVal_bounds y3 hy3
        have := digVal_bounds y4 hy4
        have := digVal_bounds a1 ha1
        have := digVal_bounds a2 ha2
        have := digVal_bounds b1 hb1
        have := digVal_bounds b2 hb2
        have := digVal_bounds h1 hh1
        have := digVal_bounds h2 hh2
        have := digVal_bounds n1 hn1
        have := digVal_bounds n2 hn2
        obtain ⟨hr1, hr2, hr3, hr4, hr5, hr6⟩ := hrange
        unfold validDT
        dsimp only
        refine ⟨⟨by omega, by omega, by omega, ?_, by omega, by omega, by omega, by omega⟩,
          by omega, by omega⟩
        exact hr4
      · exact absurd h (by simp)
    · exact absurd h (by simp)
  · exact absurd h (by simp)

theorem natDigitsAux_lt (fuel n : Nat) (h : n < 10) : natDigitsAux fuel n = [digitChar n] := by
  cases fuel with
  | zero => rfl
  | succ f =>
    unfold natDigitsAux
    rw [if_pos h]

theorem natDigitsAux_step (fuel n : Nat) (h : ¬n < 10) :
    natDigitsAux (fuel + 1) n = natDigitsAux fuel (n / 10) ++ [digitChar (n % 10)] := by
  have he : natDigitsAux (fuel + 1) n =
      if n < 10 then [digitChar n] else natDigitsAux fuel (n / 10) ++ [digitChar (n % 10)] := rfl
  rw [he, if_neg h]

theorem natDigitsAux_two (fuel n : Nat) (hf : 1 ≤ fuel) (h1 : 10 ≤ n) (h2 : n ≤ 99) :
    natDigitsAux fuel n = [digitChar (n / 10), digitChar (n % 10)] := by
  obtain ⟨f, rfl⟩ : ∃ f, fuel = f + 1 := ⟨fuel - 1, by omega⟩
  rw [natDigitsAux_step f n (by omega), natDigitsAux_lt f (n / 10) (by omega)]
  rfl

theorem natDigitsAux_three (fuel n : Nat) (hf : 2 ≤ fuel) (h1 : 100 ≤ n) (h2 : n ≤ 999) :
    natDigitsAux fuel n = [digitChar (n / 100), digitChar (n / 10 % 10), digitChar (n % 10)] := by
  obtain ⟨f, rfl⟩ : ∃ f, fuel = f + 1 := ⟨fuel - 1, by omega⟩
  rw [natDigitsAux_step f n (by omega), natDigitsAux_two f (n / 10) (by omega) (by omega) (by omega)]
  have e1 : n / 10 / 10 = n / 100 := by omega
  have e2 : n / 10 % 10 = n / 10 % 10 := rfl
  rw [e1]
  rfl

theorem natDigitsAux_four (fuel n : Nat) (hf : 3 ≤ fuel) (h1 : 1000 ≤ n) (h2 : n ≤ 9999) :
    natDigitsAux fuel n =
      [digitChar (n / 1000), digitChar (n / 100 % 10), digitChar (n / 10 % 10),
        digitChar (n % 10)] := by
  obtain ⟨f, rfl⟩ : ∃ f, fuel = f + 1 := ⟨fuel - 1, by omega⟩
  rw [natDigitsAux_step f n (by omega),
    natDigitsAux_three f (n / 10) (by omega) (by omega) (by omega)]
  have e1 : n / 10 / 100 = n / 1000 := by omega
  have e2 : n / 10 / 10 % 10 = n / 100 % 10 := by omega
  have e3 : n / 10 % 10 = n / 10 % 10 := rfl
  rw [e1, e2]
  rfl

theorem natDigits_four (n : Nat) (h1 : 1000 ≤ n) (h2 : n ≤ 9999) :
    natDigits n =
      [digitChar (n / 1000), digitChar (n / 100 % 10), digitChar (n / 10 % 10),
        digitChar (n % 10)] :=
  natDigitsAux_four n n (by omega) h1 h2

theorem intStr_nonneg (n : Int) (h : 0 ≤ n) : intStr n = natDigits n.toNat := by
  unfold intStr
  rw [if_neg (by omega)]

theorem pad2_digits (n : Int) (h0 : 0 ≤ n) (h99 : n ≤ 99) :
    pad2 n = [digitChar (n.toNat / 10), digitChar (n.toNat % 10)] := by
  unfold pad2
  rw [intStr_nonneg n h0]
  by_cases hlt : n < 10
  · rw [show natDigits n.toNat = [digitChar n.toNat] from natDigitsAux_lt _ _ (by omega)]
    rw [if_pos (by simp)]
    have e1 : n.toNat / 10 = 0 := by omega
    have e2 : n.toNat % 10 = n.toNat := by omega
    rw [e1, e2]
    rfl
  · rw [show natDigits n.toNat = [digitChar (n.toNat / 10), digitChar (n.toNat % 10)] from
      natDigitsAux_two _ _ (by omega) (by omega) (by omega)]
    rw [if_neg (by simp)]

theorem isDig_digitChar (k : Nat) (h : k ≤ 9) : isDig (digitChar k) := by
  interval_cases k <;> decide

theorem digVal_digitChar (k : Nat) (h : k ≤ 9) : digVal (digitChar k) = (k : Int) := by
  interval_cases k <;> decide

theorem parse_fmt (d : DT) (h : validDT d) (hy1 : 1000 ≤ d.year) (hy2 : d.year ≤ 9999) :
    parseTS (fmtDT d) = some d := by
  obtain ⟨hm0, hm1, hd0, hd1, hh0, hh1, hn0, hn1⟩ := h
  have hdle := daysInMonth_le d.year d.month
  have hyd : intStr d.year =
      [digitChar (d.year.toNat / 1000), digitChar (d.year.toNat / 100 % 10),
        digitChar (d.year.toNat / 10 % 10), digitChar (d.year.toNat % 10)] := by
    rw [intStr_nonneg _ (by omega)]
    exact natDigits_four _ (by omega) (by omega)
  have hmo2 : pad2 (d.month + 1) =
      [digitChar ((d.month + 1).toNat / 10), digitChar ((d.month + 1).toNat % 10)] :=
    pad2_digits _ (by omega) (by omega)
  have hda : pad2 d.day = [digitChar (d.day.toNat / 10), digitChar (d.day.toNat % 10)] :=
    pad2_digits _ (by omega) (by omega)
  have hho : pad2 d.hour = [digitChar (d.hour.toNat / 10), digitChar (d.hour.toNat % 10)] :=
    pad2_digits _ (by omega) (by omega)
  have hmi2 : pad2 d.minute = [digitChar (d.minute.toNat / 10), digitChar (d.minute.toNat % 10)] :=
    pad2_digits _ (by omega) (by omega)
  have hyeq : 1000 * ((d.year.toNat / 1000 : Nat) : Int) + 100 * ((d.year.toNat / 100 % 10 : Nat) : Int) +
      10 * ((d.year.toNat / 10 % 10 : Nat) : Int) + ((d.year.toNat % 10 : Nat) : Int) = d.year := by
    omega
  have hmeq : 10 * (((d.month + 1).toNat / 10 : Nat) : Int) + (((d.month + 1).toNat % 10 : Nat) : Int) =
      d.month + 1 := by omega
  have hdeq : 10 * ((d.day.toNat / 10 : Nat) : Int) + ((d.day.toNat % 10 : Nat) : Int) = d.day := by
    omega
  have hheq : 10 * ((d.hour.toNat / 10 : Nat) : Int) + ((d.hour.toNat % 10 : Nat) : Int) = d.hour := by
    omega
  have hneq : 10 * ((d.minute.toNat / 10 : Nat) : Int) + ((d.minute.toNat % 10 : Nat) : Int) =
      d.minute := by omega
  unfold fmtDT
  rw [hyd, hmo2, hda, hho, hmi2]
  simp only [List.cons_append, List.nil_append]
  simp only [parseTS]
  split
  · try dsimp only
    rw [digVal_digitChar (d.year.toNat / 1000) (by omega),
      digVal_digitChar (d.year.toNat / 100 % 10) (by omega),
      digVal_digitChar (d.year.toNat / 10 % 10) (by omega),
      digVal_digitChar (d.year.toNat % 10) (by omega),
      digVal_digitChar ((d.month + 1).toNat / 10) (by omega),
      digVal_digitChar ((d.month + 1).toNat % 10) (by omega),
      digVal_digitChar (d.day.toNat / 10) (by omega),
      digVal_digitChar (d.day.toNat % 10) (by omega),
      digVal_digitChar (d.hour.toNat / 10) (by omega),
      digVal_digitChar (d.hour.toNat % 10) (by omega),
      digVal_digitChar (d.minute.toNat / 10) (by omega),
      digVal_digitChar (d.minute.toNat % 10) (by omega)]
    rw [hyeq, hmeq, hdeq, hheq, hneq]
    have hcond : 1 ≤ d.month + 1 ∧ d.month + 1 ≤ 12 ∧ 1 ≤ d.day ∧
        d.day ≤ daysInMonth d.year (d.month + 1 - 1) ∧ d.hour ≤ 23 ∧ d.minute ≤ 59 := by
      rw [show d.month + 1 - 1 = d.month from by omega]
      exact ⟨by omega, by omega, by omega, hd1, by omega, by omega⟩
    rw [if_pos hcond, show d.month + 1 - 1 = d.month from by omega]
  · next hfalse =>
    exfalso
    apply hfalse
    refine ⟨?_, ?_, ?_, ?_, ?_, ?_, ?_, ?_, ?_, ?_, ?_, ?_, ?_, ?_, ?_, ?_⟩ <;>
      first
        | exact trivial
        | exact isDig_digitChar _ (by omega)

theorem parseTS_not_empty (s : JStr) (dt : DT) (h : parseTS s = some dt) :
    s.isEmpty = false := by
  cases s with
  | nil => exact absurd h (by simp [parseTS])
  | cons a t => rfl

theorem calcNC_eq_of_parse (T freq : JStr) (dt : DT) (h : parseTS T = some dt)
    (hf : freq.isEmpty = false) :
    calculateNextContact T freq =
      (if freq = sl "weekly" then some (fmtDT (addDays dt 7))
       else if freq = sl "monthly" then some (fmtDT (addMonths dt 1))
       else if freq = sl "quarterly" then some (fmtDT (addMonths dt 3))
       else if freq = sl "yearly" then some (fmtDT (addYears dt))
       else none) := by
  unfold calculateNextContact
  rw [parseTS_not_empty T dt h, hf, h]
  rfl

theorem calcNC_weekly (T : JStr) (dt : DT) (h : parseTS T = some dt) :
    calculateNextContact T (sl "weekly") = some (fmtDT (addDays dt 7)) := by
  rw [calcNC_eq_of_parse T (sl "weekly") dt h rfl, if_pos rfl]

theorem calcNC_monthly (T : JStr) (dt : DT) (h : parseTS T = some dt) :
    calculateNextContact T (sl "monthly") = some (fmtDT (addMonths dt 1)) := by
  rw [calcNC_eq_of_parse T (sl "monthly") dt h rfl, if_neg (by decide), if_pos rfl]

theorem calcNC_quarterly (T : JStr) (dt : DT) (h : parseTS T = some dt) :
    calculateNextContact T (sl "quarterly") = some (fmtDT (addMonths dt 3)) := by
  rw [calcNC_eq_of_parse T (sl "quarterly") dt h rfl, if_neg (by decide), if_neg (by decide),
    if_pos rfl]

theorem calcNC_yearly (T : JStr) (dt : DT) (h : parseTS T = some dt) :
    calculateNextContact T (sl "yearly") = some (fmtDT (addYears dt)) := by
  rw [calcNC_eq_of_parse T (sl "yearly") dt h rfl, if_neg (by decide), if_neg (by decide),
    if_neg (by decide), if_pos rfl]

theorem calcNC_none_iff (L F : JStr) :
    calculateNextContact L F = none ↔
      (L = [] ∨ (F ≠ sl "weekly" ∧ F ≠ sl "monthly" ∧ F ≠ sl "quarterly" ∧ F ≠ sl "yearly")) := by
  unfold calculateNextContact
  cases L with
  | nil => simp
  | cons a t =>
    rw [show (a :: t).isEmpty = false from rfl]
    by_cases hF : F.isEmpty = true
    · have hFnil : F = [] := by
        cases F with
        | nil => rfl
        | cons b u => simp [List.isEmpty] at hF
      subst hFnil
      rw [show ([] : JStr).isEmpty = true from rfl]
      simp only [Bool.or_true, if_true]
      refine iff_of_true ?_ (Or.inr (by refine ⟨?_, ?_, ?_, ?_⟩ <;> decide))
      trivial
    · rw [show F.isEmpty = false from by simpa using hF]
      simp only [Bool.or_false, Bool.false_eq_true, if_false]
      cases hp : parseTS (a :: t) with
      | some dt =>
        dsimp only
        split_ifs with h1 h2 h3 h4
        · refine iff_of_false (by simp) ?_
          rintro (hl | hr)
          · exact absurd hl (by simp)
          · exact hr.1 h1
        · refine iff_of_false (by simp) ?_
          rintro (hl | hr)
          · exact absurd hl (by simp)
          · exact hr.2.1 h2
        · refine iff_of_false (by simp) ?_
          rintro (hl | hr)
          · exact absurd hl (by simp)
          · exact hr.2.2.1 h3
        · refine iff_of_false (by simp) ?_
          rintro (hl | hr)
          · exact absurd hl (by simp)
          · exact hr.2.2.2 h4
        · exact iff_of_true rfl (Or.inr ⟨h1, h2, h3, h4⟩)
      | none =>
        dsimp only
        by_cases hrec : F = sl "weekly" ∨ F = sl "monthly" ∨ F = sl "quarterly" ∨ F = sl "yearly"
        · rw [if_pos hrec]
          refine iff_of_false (by simp) ?_
          rintro (hl | hr)
          · exact absurd hl (by simp)
          · rcases hrec with rfl | rfl | rfl | rfl
            · exact hr.1 rfl
            · exact hr.2.1 rfl
            · exact hr.2.2.1 rfl
            · exact hr.2.2.2 rfl
        · rw [if_neg hrec]
          simp only [not_or] at hrec
          exact iff_of_true rfl (Or.inr ⟨hrec.1, hrec.2.1, hrec.2.2.1, hrec.2.2.2⟩)

/-- C1 counterexample: the claim asserts the round trip preserves every
non-empty optional field, `notes` included.  For the concrete contact
`cNotes`, whose `notes` is the non-empty string `"Loves hiking"`, encoding
and decoding yields a contact whose `notes` is absent: the notes live in
the document body, which `getContactFromFile` never reads back. -/
theorem c1_counterexample :
    cNotes.notes = some (sl "Loves hiking") ∧
      (getContactFromFile
        ⟨sl "Contacts/Ann.md", contactFileContent cNotes, 0, 0⟩).map Contact.notes ≠
        some cNotes.notes := by
  refine ⟨by decide, ?_⟩
  decide

/-- C1 (amended): for a well-formed contact (non-empty single-line name,
codec-safe values, decodable tags) whose `email` and `phone` are present,
encoding to document text and decoding the result preserves `name`,
`email` and `phone`, and every truthy optional field except `notes`,
which always decodes as absent; absent or empty optional fields may
decode as absent. -/
theorem c1_roundtrip_amended (c : Contact) (hwf : WF c)
    (he : c.email ≠ none) (hp : c.phone ≠ none) (path : JStr) (ct mt : Nat) :
    (getContactFromFile ⟨path, contactFileContent c, ct, mt⟩).map Contact.name = some c.name ∧
    (getContactFromFile ⟨path, contactFileContent c, ct, mt⟩).map Contact.email = some c.email ∧
    (getContactFromFile ⟨path, contactFileContent c, ct, mt⟩).map Contact.phone = some c.phone ∧
    (truthyS c.company = true →
      (getContactFromFile ⟨path, contactFileContent c, ct, mt⟩).map Contact.company =
        some c.company) ∧
    (truthyS c.title = true →
      (getContactFromFile ⟨path, contactFileContent c, ct, mt⟩).map Contact.title =
        some c.title) ∧
    (truthyT c.tags = true →
      (getContactFromFile ⟨path, contactFileContent c, ct, mt⟩).map Contact.tags =
        some c.tags) ∧
    (truthyS c.last_contacted = true →
      (getContactFromFile ⟨path, contactFileContent c, ct, mt⟩).map Contact.last_contacted =
        some c.last_contacted) ∧
    (truthyS c.next_contact = true →
      (getContactFromFile ⟨path, contactFileContent c, ct, mt⟩).map Contact.next_contact =
        some c.next_contact) ∧
    (truthyS c.contact_frequency = true →
      (getContactFromFile ⟨path, contactFileContent c, ct, mt⟩).map Contact.contact_frequency =
        some c.contact_frequency) ∧
    (getContactFromFile ⟨path, contactFileContent c, ct, mt⟩).map Contact.notes = some none := by
  rw [decode_encode c hwf path ct mt]
  simp only [Option.map_some']
  unfold decodedOf
  dsimp only
  refine ⟨rfl, ?_, ?_, ?_, ?_, ?_, ?_, ?_, ?_, rfl⟩
  · obtain ⟨v, hv⟩ := Option.ne_none_iff_exists'.mp he
    rw [hv]
    simp [interpU]
  · obtain ⟨v, hv⟩ := Option.ne_none_iff_exists'.mp hp
    rw [hv]
    simp [interpU]
  · intro hb
    unfold presentVal
    rw [if_pos hb]
    cases hx : c.company with
    | none => exact absurd hb (by simp [truthyS, hx])
    | some v => simp
  · intro hb
    unfold presentVal
    rw [if_pos hb]
    cases hx : c.title with
    | none => exact absurd hb (by simp [truthyS, hx])
    | some v => simp
  · intro hb
    rw [if_pos hb]
    cases hx : c.tags with
    | none => exact absurd hb (by simp [truthyT, hx])
    | some l => simp
  · intro hb
    unfold presentVal
    rw [if_pos hb]
    cases hx : c.last_contacted with
    | none => exact absurd hb (by simp [truthyS, hx])
    | some v => simp
  · intro hb
    unfold presentVal
    rw [if_pos hb]
    cases hx : c.next_contact with
    | none => exact absurd hb (by simp [truthyS, hx])
    | some v => simp
  · intro hb
    unfold presentVal
    rw [if_pos hb]
    cases hx : c.contact_frequency with
    | none => exact absurd hb (by simp [truthyS, hx])
    | some v => simp

/-- C1 witness: the amended round trip evaluated at the concrete contact
`annLee`. -/
theorem c1_witness :
    (getContactFromFile
      ⟨sl "Contacts/Ann-Lee.md", contactFileContent annLee, 5, 6⟩).map Contact.name =
        some annLee.name ∧
    (getContactFromFile
      ⟨sl "Contacts/Ann-Lee.md", contactFileContent annLee, 5, 6⟩).map Contact.email =
        some annLee.email := by
  have h := c1_roundtrip_amended annLee (by decide) (by decide) (by decide)
    (sl "Contacts/Ann-Lee.md") 5 6
  exact ⟨h.1, h.2.1⟩

/-- C2 counterexample: the claim asserts the output's hour and minute are
the wall-clock hour and minute at the moment of the call rather than the
input's.  `calculateNextContact` is a pure function of its two string
arguments (its embedding takes no clock), and two calls whose inputs
differ only in time-of-day return outputs carrying each input's own
time-of-day — `03:04` and `07:09` — so the output's hour/minute track the
`lastContacted` argument, not any ambient clock. -/
theorem c2_counterexample :
    calculateNextContact (sl "2025-01-15T03:04") (sl "weekly") =
        some (sl "2025-01-22T03:04") ∧
      calculateNextContact (sl "2025-01-15T07:09") (sl "weekly") =
        some (sl "2025-01-22T07:09") := by
  constructor
  · decide
  · decide

/-- C2 (amended): for every parseable `lastContacted` and recognized
frequency, the output is the advanced civil date-time formatted as
`YYYY-MM-DDTHH:mm` with zero-padded components (witnessed by the output
parsing back to exactly the advanced date-time), and its hour and minute
equal those carried by the `lastContacted` input — not the wall-clock
time of the call. -/
theorem c2_hourmin_amended (T : JStr) (dt : DT) (h : parseTS T = some dt)
    (hy1 : 1000 ≤ dt.year) (hy2 : dt.year ≤ 9998) :
    (calculateNextContact T (sl "weekly") = some (fmtDT (addDays dt 7)) ∧
      parseTS (fmtDT (addDays dt 7)) = some (addDays dt 7) ∧
      (addDays dt 7).hour = dt.hour ∧ (addDays dt 7).minute = dt.minute) ∧
    (calculateNextContact T (sl "monthly") = some (fmtDT (addMonths dt 1)) ∧
      parseTS (fmtDT (addMonths dt 1)) = some (addMonths dt 1) ∧
      (addMonths dt 1).hour = dt.hour ∧ (addMonths dt 1).minute = dt.minute) ∧
    (calculateNextContact T (sl "quarterly") = some (fmtDT (addMonths dt 3)) ∧
      parseTS (fmtDT (addMonths dt 3)) = some (addMonths dt 3) ∧
      (addMonths dt 3).hour = dt.hour ∧ (addMonths dt 3).minute = dt.minute) ∧
    (calculateNextContact T (sl "yearly") = some (fmtDT (addYears dt)) ∧
      parseTS (fmtDT (addYears dt)) = some (addYears dt) ∧
      (addYears dt).hour = dt.hour ∧ (addYears dt).minute = dt.minute) := by
  have hv := (parseTS_valid T dt h).1
  obtain ⟨hw1, hw2, hw3, hw4, hw5, hw6⟩ := addDays7_spec dt hv
  obtain ⟨hmm1, hm2, hm3, hm4, hm5, hm6⟩ := addMonths_spec dt 1 (by omega) (by omega) hv
  obtain ⟨hq1, hq2, hq3, hq4, hq5, hq6⟩ := addMonths_spec dt 3 (by omega) (by omega) hv
  obtain ⟨hz1, hz2, hz3, hz4, hz5, hz6⟩ := addYears_spec dt hv
  exact ⟨⟨calcNC_weekly T dt h, parse_fmt _ hw1 (by omega) (by omega), hw5, hw6⟩,
    ⟨calcNC_monthly T dt h, parse_fmt _ hmm1 (by omega) (by omega), hm5, hm6⟩,
    ⟨calcNC_quarterly T dt h, parse_fmt _ hq1 (by omega) (by omega), hq5, hq6⟩,
    ⟨calcNC_yearly T dt h, parse_fmt _ hz1 (by omega) (by omega), hz5, hz6⟩⟩

/-- C2 witness: the amended statement evaluated at
`lastContacted = "2025-01-15T03:04"` (first conjunct, weekly). -/
theorem c2_witness :
    calculateNextContact (sl "2025-01-15T03:04") (sl "weekly") =
        some (fmtDT (addDays ⟨2025, 0, 15, 3, 4⟩ 7)) ∧
      parseTS (fmtDT (addDays ⟨2025, 0, 15, 3, 4⟩ 7)) = some (addDays ⟨2025, 0, 15, 3, 4⟩ 7) ∧
      (addDays ⟨2025, 0, 15, 3, 4⟩ 7).hour = (3 : Int) ∧
      (addDays ⟨2025, 0, 15, 3, 4⟩ 7).minute = (4 : Int) :=
  (c2_hourmin_amended (sl "2025-01-15T03:04") ⟨2025, 0, 15, 3, 4⟩ (by decide) (by decide)
    (by decide)).1

/-- C3 counterexample: the claim asserts that an unrecognizable
`lastContacted` yields `undefined`.  For the unparseable input
`"garbage"` with the recognized frequency `"weekly"`, the function
instead formats the invalid date and returns the defined string
`"NaN-NaN-NaNTNaN:NaN"`, not `undefined`. -/
theorem c3_counterexample :
    calculateNextContact (sl "garbage") (sl "weekly") = some nanStr ∧
      calculateNextContact (sl "garbage") (sl "weekly") ≠ none := by
  constructor
  · decide
  · decide

/-- C3 (amended): `calculateNextContact` returns `undefined` exactly when
`lastContacted` is empty or the frequency is not one of the four
recognized tags (the empty frequency included); an unrecognizable but
non-empty `lastContacted` with a recognized frequency returns the `NaN`
format string rather than `undefined`. -/
theorem c3_undefined_iff_amended (L F : JStr) :
    calculateNextContact L F = none ↔
      (L = [] ∨ (F ≠ sl "weekly" ∧ F ≠ sl "monthly" ∧ F ≠ sl "quarterly" ∧ F ≠ sl "yearly")) :=
  calcNC_none_iff L F

/-- C4: the "Mark as Contacted" handler does not read the clock for
`last_contacted`: whatever the live ISO timestamp `nowIso` is, it sets
`last_contacted` to the hardcoded constant `'2025-04-24T09:28'`,
recomputes `next_contact` from that constant when a frequency is set,
stamps `modified` with the live clock, and persists the result through
`updateContact`. -/
theorem c4_mark_constant (folder : JStr) (c : Contact) (originalName : Option JStr)
    (nowIso : JStr) (v : Vault) :
    (markAsContacted folder c originalName nowIso v).1.last_contacted =
        some (sl "2025-04-24T09:28") ∧
      (markAsContacted folder c originalName nowIso v).1.next_contact =
        (if truthyS c.contact_frequency then
          calculateNextContact (sl "2025-04-24T09:28") (c.contact_frequency.getD [])
         else c.next_contact) ∧
      (markAsContacted folder c originalName nowIso v).1.modified = nowIso ∧
      (markAsContacted folder c originalName nowIso v).2 =
        updateContact folder v (markAsContacted folder c originalName nowIso v).1
          originalName := by
  unfold markAsContacted
  by_cases hb : truthyS c.contact_frequency <;> simp [hb]

/-- C9: for every well-formed contact, an `undefined` `email` (whatever
the phone is) encodes to a document containing the literal frontmatter
line `email: undefined`, and decoding that document produces a contact
whose `email` is the nine-character string `"undefined"`; independently,
the same holds for an `undefined` `phone` (whatever the email is). -/
theorem c9_undefined_interp (c : Contact) (hwf : WF c) (path : JStr) (ct mt : Nat) :
    (c.email = none →
      sl "email: undefined" ∈ jsSplit '\n' (createFrontMatter c) ∧
      (getContactFromFile ⟨path, contactFileContent c, ct, mt⟩).map Contact.email =
        some (some (sl "undefined"))) ∧
    (c.phone = none →
      sl "phone: undefined" ∈ jsSplit '\n' (createFrontMatter c) ∧
      (getContactFromFile ⟨path, contactFileContent c, ct, mt⟩).map Contact.phone =
        some (some (sl "undefined"))) := by
  have hlines : jsSplit '\n' (createFrontMatter c) = (kvsOf c).map lineOf := by
    rw [createFrontMatter_eq]
    exact jsSplit_joinChar '\n' _ (fun hm => kvsOf_ne_nil c (by simpa using hm))
      (kvs_lines_nl c hwf)
  refine ⟨fun he => ⟨?_, ?_⟩, fun hp => ⟨?_, ?_⟩⟩
  · rw [hlines]
    refine List.mem_map.mpr ⟨(sl "email", interpU c.email), by simp [kvsOf], ?_⟩
    rw [he]
    rfl
  · rw [decode_encode c hwf path ct mt]
    simp only [Option.map_some']
    unfold decodedOf
    rw [he]
    rfl
  · rw [hlines]
    refine List.mem_map.mpr ⟨(sl "phone", interpU c.phone), by simp [kvsOf], ?_⟩
    rw [hp]
    rfl
  · rw [decode_encode c hwf path ct mt]
    simp only [Option.map_some']
    unfold decodedOf
    rw [hp]
    rfl

/-- C9 witness: the undefined-interpolation behaviour evaluated at the
concrete contact `careyPhone` (email absent, phone present — the typical
case) and, for the phone side, at `bobNil` (phone absent). -/
theorem c9_witness :
    (sl "email: undefined" ∈ jsSplit '\n' (createFrontMatter careyPhone) ∧
      (getContactFromFile
        ⟨sl "Contacts/Carey.md", contactFileContent careyPhone, 0, 0⟩).map Contact.email =
        some (some (sl "undefined"))) ∧
    (sl "phone: undefined" ∈ jsSplit '\n' (createFrontMatter bobNil) ∧
      (getContactFromFile
        ⟨sl "Contacts/Bob.md", contactFileContent bobNil, 0, 0⟩).map Contact.phone =
        some (some (sl "undefined"))) := by
  have h1 := (c9_undefined_interp careyPhone (by decide) (sl "Contacts/Carey.md") 0 0).1
    (by decide)
  have h2 := (c9_undefined_interp bobNil (by decide) (sl "Contacts/Bob.md") 0 0).2
    (by decide)
  exact ⟨h1, h2⟩

/-- Transfers an unsuccessful path lookup along an equality of path
lists. -/
theorem lookupF_none_of_paths_eq (p : JStr) (files1 files2 : List TFile)
    (hp : files1.map TFile.path = files2.map TFile.path) (h : lookupF files1 p = none) :
    lookupF files2 p = none := by
  rw [lookupF_none_iff] at h ⊢
  intro f hf
  have hmem : f.path ∈ files2.map TFile.path := List.mem_map_of_mem _ hf
  rw [← hp] at hmem
  obtain ⟨g, hg, hgp⟩ := List.mem_map.mp hmem
  intro hfp
  exact h g hg (hgp.trans hfp)

/-- C5: when the derived old path has no document (nor folder) in the
store, `updateContact` throws `Original contact file not found` before
touching the store: the result is the error, never a modified vault. -/
theorem c5_update_notfound (folder : JStr) (v : Vault) (c : Contact)
    (originalName : Option JStr)
    (h : abstractEx v (contactPath folder (originalBase c originalName)) = false) :
    updateContact folder v c originalName =
        Except.error (sl "Original contact file not found") ∧
      ∀ v', updateContact folder v c originalName ≠ Except.ok v' := by
  have h1 : updateContact folder v c originalName =
      Except.error (sl "Original contact file not found") := by
    unfold updateContact
    dsimp only
    rw [h]
    rfl
  exact ⟨h1, fun v' hc => by rw [h1] at hc; exact Except.noConfusion hc⟩

/-- C5 witness: updating a contact whose original document does not exist
in a store that only has the empty contacts folder. -/
theorem c5_witness :
    updateContact (sl "Contacts") ⟨[], [sl "Contacts"]⟩ bobNil (some (sl "Ghost")) =
      Except.error (sl "Original contact file not found") :=
  (c5_update_notfound (sl "Contacts") ⟨[], [sl "Contacts"]⟩ bobNil (some (sl "Ghost"))
    (by decide)).1

/-- C6: when the storage folder exists, `getAllContacts` returns exactly
the successful decodes of the files whose paths start with the folder, in
the store's enumeration order; a document with no frontmatter block, or
whose frontmatter has no `name` key, decodes to `none` and is therefore
silently excluded — and the function is total, so no call raises. -/
theorem c6_getAllContacts (folder : JStr) (v : Vault) (h : abstractEx v folder = true) :
    getAllContacts folder v =
        (v.files.filter (fun f => startsW folder f.path)).filterMap getContactFromFile ∧
      (∀ f : TFile, extractFrontMatter f.content = none → getContactFromFile f = none) ∧
      (∀ (f : TFile) (fm : Fm), extractFrontMatter f.content = some fm →
        fmGet fm (sl "name") = none → getContactFromFile f = none) := by
  refine ⟨?_, ?_, ?_⟩
  · unfold getAllContacts
    rw [h]
    simpa using foldl_collect (v.files.filter (fun f => startsW folder f.path)) []
  · intro f hf
    unfold getContactFromFile
    rw [hf]
  · intro f fm hf hn
    unfold getContactFromFile
    rw [hf]
    show decodeFm fm f.ctime f.mtime = none
    unfold decodeFm
    rw [hn]
    rfl

/-- C6 witness: the listing of `exVault` (one valid contact, one
frontmatter-less file, one name-less file). -/
theorem c6_witness :
    getAllContacts (sl "Contacts") exVault =
      (exVault.files.filter
        (fun f => startsW (sl "Contacts") f.path)).filterMap getContactFromFile :=
  (c6_getAllContacts (sl "Contacts") exVault (by decide)).1

/-- C7: when the old and new derived paths differ and the old document
exists, `updateContact` renames the document to the new path and then
overwrites it with the freshly encoded contact: afterwards nothing is at
the old path and the document at the new path holds exactly the encoded
new contact data. -/
theorem c7_update_rename (folder : JStr) (v : Vault) (c : Contact) (origName : JStr)
    (hne : origName.isEmpty = false)
    (hdiff : contactPath folder origName ≠ contactPath folder c.name)
    (hex : (lookupF v.files (contactPath folder origName)).isSome = true) :
    updateContact folder v c (some origName) =
        Except.ok (modifyV (renameV v (contactPath folder origName) (contactPath folder c.name))
          (contactPath folder c.name) (contactFileContent c)) ∧
      lookupF (modifyV (renameV v (contactPath folder origName) (contactPath folder c.name))
          (contactPath folder c.name) (contactFileContent c)).files
        (contactPath folder origName) = none ∧
      (lookupF (modifyV (renameV v (contactPath folder origName) (contactPath folder c.name))
          (contactPath folder c.name) (contactFileContent c)).files
        (contactPath folder c.name)).map TFile.content = some (contactFileContent c) := by
  have hbase : originalBase c (some origName) = origName := by
    unfold originalBase
    dsimp only
    rw [hne]
    rfl
  have habs : abstractEx v (contactPath folder origName) = true := by
    unfold abstractEx
    rw [hex]
    rfl
  have hnew_ex : (lookupF (renameV v (contactPath folder origName)
      (contactPath folder c.name)).files (contactPath folder c.name)).isSome = true :=
    renameV_exists_new v _ _ hex
  obtain ⟨f0, hf0⟩ := Option.isSome_iff_exists.mp hnew_ex
  refine ⟨?_, ?_, ?_⟩
  · unfold updateContact
    dsimp only
    rw [hbase, habs]
    simp only [if_true]
    rw [if_neg hdiff, hf0]
  · exact lookupF_none_of_paths_eq _ _ _
      (modifyV_paths (renameV v (contactPath folder origName) (contactPath folder c.name))
        (contactPath folder c.name) (contactFileContent c)).symm
      (renameV_lookup_old v _ _ hdiff)
  · exact modifyV_lookup_content _ _ _ hnew_ex

/-- C7 witness: renaming `Bob Old` to `Bob New` moves
`Contacts/Bob-Old.md` to `Contacts/Bob-New.md` and the final content is
the encoded new contact. -/
theorem c7_witness :
    updateContact (sl "Contacts") bobVault bobNew (some (sl "Bob Old")) =
        Except.ok (modifyV (renameV bobVault (sl "Contacts/Bob-Old.md")
          (sl "Contacts/Bob-New.md")) (sl "Contacts/Bob-New.md")
          (contactFileContent bobNew)) ∧
      lookupF (modifyV (renameV bobVault (sl "Contacts/Bob-Old.md")
          (sl "Contacts/Bob-New.md")) (sl "Contacts/Bob-New.md")
          (contactFileContent bobNew)).files (sl "Contacts/Bob-Old.md") = none := by
  have h := c7_update_rename (sl "Contacts") bobVault bobNew (sl "Bob Old")
    (by decide) (by decide) (by decide)
  have hold : contactPath (sl "Contacts") (sl "Bob Old") = sl "Contacts/Bob-Old.md" := by decide
  have hnew : contactPath (sl "Contacts") bobNew.name = sl "Contacts/Bob-New.md" := by decide
  rw [hold, hnew] at h
  exact ⟨h.1, h.2.1⟩

/-- C8: for every parseable timestamp (in the four-digit-year range kept
representable by the output format) and every recognized frequency,
`calculateNextContact` returns the input advanced by exactly the stated
calendar unit under the host date library's rollover rules — seven
calendar days, one month, three months, or one year, as modelled by
`addDays`/`addMonths`/`addYears` — and the resulting date, recovered by
parsing the output, is strictly later than the input. -/
theorem c8_advance_units (T : JStr) (dt : DT) (h : parseTS T = some dt)
    (hy1 : 1000 ≤ dt.year) (hy2 : dt.year ≤ 9998) :
    (calculateNextContact T (sl "weekly") = some (fmtDT (addDays dt 7)) ∧
      parseTS (fmtDT (addDays dt 7)) = some (addDays dt 7) ∧
      strictLater dt (addDays dt 7)) ∧
    (calculateNextContact T (sl "monthly") = some (fmtDT (addMonths dt 1)) ∧
      parseTS (fmtDT (addMonths dt 1)) = some (addMonths dt 1) ∧
      strictLater dt (addMonths dt 1)) ∧
    (calculateNextContact T (sl "quarterly") = some (fmtDT (addMonths dt 3)) ∧
      parseTS (fmtDT (addMonths dt 3)) = some (addMonths dt 3) ∧
      strictLater dt (addMonths dt 3)) ∧
    (calculateNextContact T (sl "yearly") = some (fmtDT (addYears dt)) ∧
      parseTS (fmtDT (addYears dt)) = some (addYears dt) ∧
      strictLater dt (addYears dt)) := by
  have hv := (parseTS_valid T dt h).1
  obtain ⟨hw1, hw2, hw3, hw4, hw5, hw6⟩ := addDays7_spec dt hv
  obtain ⟨hm1, hm2, hm3, hm4, hm5, hm6⟩ := addMonths_spec dt 1 (by omega) (by omega) hv
  obtain ⟨hq1, hq2, hq3, hq4, hq5, hq6⟩ := addMonths_spec dt 3 (by omega) (by omega) hv
  obtain ⟨hz1, hz2, hz3, hz4, hz5, hz6⟩ := addYears_spec dt hv
  exact ⟨⟨calcNC_weekly T dt h, parse_fmt _ hw1 (by omega) (by omega), hw2⟩,
    ⟨calcNC_monthly T dt h, parse_fmt _ hm1 (by omega) (by omega), hm2⟩,
    ⟨calcNC_quarterly T dt h, parse_fmt _ hq1 (by omega) (by omega), hq2⟩,
    ⟨calcNC_yearly T dt h, parse_fmt _ hz1 (by omega) (by omega), hz2⟩⟩

/-- C8 witness: the spec's own rollover example — one month after
`2025-01-31T10:00` is `2025-03-03T10:00` (Jan 31 + 1 month = Feb 31,
normalized to Mar 3), strictly later than the input. -/
theorem c8_witness :
    (calculateNextContact (sl "2025-01-31T10:00") (sl "monthly") =
        some (fmtDT (addMonths ⟨2025, 0, 31, 10, 0⟩ 1)) ∧
      parseTS (fmtDT (addMonths ⟨2025, 0, 31, 10, 0⟩ 1)) =
        some (addMonths ⟨2025, 0, 31, 10, 0⟩ 1) ∧
      strictLater ⟨2025, 0, 31, 10, 0⟩ (addMonths ⟨2025, 0, 31, 10, 0⟩ 1)) ∧
    fmtDT (addMonths ⟨2025, 0, 31, 10, 0⟩ 1) = sl "2025-03-03T10:00" :=
  ⟨(c8_advance_units (sl "2025-01-31T10:00") ⟨2025, 0, 31, 10, 0⟩ (by decide) (by decide)
    (by decide)).2.1, by decide⟩

/-- C10: the file-name derivation is not injective — the distinct names
`Ann Lee` and `Ann?Lee` derive the same `Ann-Lee.md` — and both
`createContact` and `updateContact` key solely on the derived path:
creating `Ann?Lee` while `Ann Lee`'s document occupies the path fails
with the host's already-exists error, and updating with the two names as
`contact.name`/`originalName` performs no rename and overwrites the
existing document in place (the path list is unchanged). -/
theorem c10_collision (folder : JStr) (v : Vault) (c : Contact)
    (hname : c.name = sl "Ann?Lee")
    (hex : (lookupF v.files (contactPath folder (sl "Ann Lee"))).isSome = true) :
    (sl "Ann Lee" ≠ sl "Ann?Lee") ∧
      fileNameFor (sl "Ann Lee") = fileNameFor (sl "Ann?Lee") ∧
      createContact folder v c = Except.error (sl "File already exists") ∧
      updateContact folder v c (some (sl "Ann Lee")) =
        Except.ok (modifyV v (contactPath folder (sl "Ann Lee")) (contactFileContent c)) ∧
      (modifyV v (contactPath folder (sl "Ann Lee"))
        (contactFileContent c)).files.map TFile.path = v.files.map TFile.path := by
  have hpath : contactPath folder (sl "Ann?Lee") = contactPath folder (sl "Ann Lee") := by
    unfold contactPath
    rw [show fileNameFor (sl "Ann?Lee") = fileNameFor (sl "Ann Lee") from by decide]
  have habs : abstractEx v (contactPath folder (sl "Ann Lee")) = true := by
    unfold abstractEx
    rw [hex]
    rfl
  obtain ⟨f0, hf0⟩ := Option.isSome_iff_exists.mp hex
  refine ⟨by decide, by decide, ?_, ?_, modifyV_paths _ _ _⟩
  · unfold createContact vaultCreate
    rw [hname, hpath, habs]
    rfl
  · unfold updateContact
    dsimp only
    have hbase : originalBase c (some (sl "Ann Lee")) = sl "Ann Lee" := rfl
    rw [hbase, hname, hpath, habs]
    simp only [if_true]
    rw [hf0]

/-- C10 witness: the collision evaluated on a concrete store. -/
theorem c10_witness :
    createContact (sl "Contacts") annVault annQ = Except.error (sl "File already exists") ∧
      updateContact (sl "Contacts") annVault annQ (some (sl "Ann Lee")) =
        Except.ok (modifyV annVault (contactPath (sl "Contacts") (sl "Ann Lee"))
          (contactFileContent annQ)) := by
  have h := c10_collision (sl "Contacts") annVault annQ (by decide) (by decide)
  exact ⟨h.2.2.1, h.2.2.2.1⟩

end OC
